import Mathlib

/-!
Shallow embedding of the ts-api analyzer (src/analyzer.ts): the declaration
registry, the JSON-schema translator, the relevance propagator and the three
artifact emitters, together with proofs settling the specification claims.

Modelling conventions:
* JavaScript objects holding schema fragments are modelled by the recursive
  type `Frag`, with one optional field per JSON-schema key the analyzer reads
  or writes (`type`, `items`, `oneOf`, `$ref`, `format`, `minimum`, `maximum`,
  `properties`, `required`, `description`, `title`).
* The global mutable symbol table `symtab` is modelled by an association list
  threaded explicitly through every operation.
* Recursion in `markAsRelevant` is not structurally terminating in the source
  (it can revisit registry entries through member edges), so it is embedded
  with an explicit fuel parameter; `Res.timeout` means the recursion exceeded
  the given depth bound.  A run that times out for every fuel value models a
  nonterminating run of the source.
* External collaborators (the typescript checker used for documentation
  comments and symbol resolution, JSON serialisation, the file system) are out
  of scope per the specification; documentation-comment enrichment of
  fragments (analyzer.ts line 267) and `JSON.stringify` rendering are not
  modelled.  `tsany.getTextOfNode` applied to the missing `typeName` of a
  non-reference return type faults in the source; this fault is modelled as an
  error result.
-/

-- ## Literal values (the `type.value` of a typescript literal type)

inductive Lit where
  | str (s : String)
  | num (n : Int)

-- JS `typeof` of the literal runtime value (literalToJSON, line 148).
def Lit.typeofLit : Lit → String
  | .str _ => "string"
  | .num _ => "number"

-- ## Type nodes (the AST type-annotation nodes the analyzer dispatches on)

-- Token kinds handled by tokenObjectToJSON (lines 72-98); `other` stands for
-- any token kind not listed in the switch (carrying the numeric SyntaxKind).
inductive TokenKind where
  | stringKw
  | numberKw
  | booleanKw
  | anyKw
  | nullKw
  | undefinedKw
  | symbolKw
  | objectKw
  | functionTok
  | other (kind : Nat)

-- NodeObject / TokenObject type nodes as dispatched by typeToJSON (217-270)
-- and markAsRelevant (299-322); `otherNode` is any unhandled NodeObject kind.
inductive TypeNode where
  | token (k : TokenKind)
  | arrayType (elem : TypeNode)
  | typeRef (name : String) (args : List TypeNode)
  | unionType (members : List TypeNode)
  | literalType (v : Lit)
  | funcType
  | typeQuery
  | parenType
  | otherNode (kind : Nat)

-- ## Schema fragments

-- A JSON-schema-shaped object; `none` for a field models the absence of the
-- key on the JS object.
inductive Frag where
  | mk (ty : Option String) (items : Option Frag) (oneOf : Option (List Frag))
       (ref : Option String) (format : Option Lit) (minimum : Option Int)
       (maximum : Option Int) (props : Option (List (String × Frag)))
       (req : Option (List String)) (desc : Option String)
       (title : Option String)

def Frag.ty : Frag → Option String
  | .mk t _ _ _ _ _ _ _ _ _ _ => t

def Frag.items : Frag → Option Frag
  | .mk _ i _ _ _ _ _ _ _ _ _ => i

def Frag.oneOf : Frag → Option (List Frag)
  | .mk _ _ o _ _ _ _ _ _ _ _ => o

def Frag.ref : Frag → Option String
  | .mk _ _ _ r _ _ _ _ _ _ _ => r

def Frag.format : Frag → Option Lit
  | .mk _ _ _ _ f _ _ _ _ _ _ => f

def Frag.minimum : Frag → Option Int
  | .mk _ _ _ _ _ mi _ _ _ _ _ => mi

def Frag.maximum : Frag → Option Int
  | .mk _ _ _ _ _ _ ma _ _ _ _ => ma

def Frag.props : Frag → Option (List (String × Frag))
  | .mk _ _ _ _ _ _ _ p _ _ _ => p

def Frag.req : Frag → Option (List String)
  | .mk _ _ _ _ _ _ _ _ r _ _ => r

def Frag.desc : Frag → Option String
  | .mk _ _ _ _ _ _ _ _ _ d _ => d

def Frag.title : Frag → Option String
  | .mk _ _ _ _ _ _ _ _ _ _ t => t

def Frag.setTy (f : Frag) (v : String) : Frag :=
  match f with
  | .mk _ i o r fo mi ma p q d t => .mk (some v) i o r fo mi ma p q d t

def Frag.setMin (f : Frag) (v : Int) : Frag :=
  match f with
  | .mk ty i o r fo _ ma p q d t => .mk ty i o r fo (some v) ma p q d t

def Frag.setMax (f : Frag) (v : Int) : Frag :=
  match f with
  | .mk ty i o r fo mi _ p q d t => .mk ty i o r fo mi (some v) p q d t

def Frag.setOneOf (f : Frag) (l : List Frag) : Frag :=
  match f with
  | .mk ty i _ r fo mi ma p q d t => .mk ty i (some l) r fo mi ma p q d t

def Frag.setReq (f : Frag) (l : List String) : Frag :=
  match f with
  | .mk ty i o r fo mi ma p _ d t => .mk ty i o r fo mi ma p (some l) d t

-- `{ type: s }`
def Frag.typeOnly (s : String) : Frag :=
  .mk (some s) none none none none none none none none none none

-- `{ $ref: s }`
def Frag.refOnly (s : String) : Frag :=
  .mk none none none (some s) none none none none none none none

-- `{ type: "array", items: i }` (`i = none` models `items: null`)
def Frag.arrayOf (i : Option Frag) : Frag :=
  .mk (some "array") i none none none none none none none none none

-- `{ oneOf: l }`
def Frag.oneOfF (l : List Frag) : Frag :=
  .mk none none (some l) none none none none none none none none

-- `{ format: v }` (leaf produced by literalToJSON, line 148)
def Frag.formatOnly (v : Lit) : Frag :=
  .mk none none none none (some v) none none none none none none

-- ## Doc-comment tags (doctrine tags consumed by applyTag, lines 163-199)

-- `minimum`/`maximum` carry the parseInt of the tag description; `typeName`
-- is a `type` tag whose type is a NameExpression; `typeOther` is a `type`
-- tag of any other expression form (ignored); `other` is any other title.
inductive Tag where
  | minimum (v : Int)
  | maximum (v : Int)
  | typeName (name : String)
  | typeOther
  | other

-- JS test `schemaObject.type != null && schemaObject.type != "null"`.
def Frag.taggable (f : Frag) : Prop :=
  f.ty ≠ none ∧ f.ty ≠ some "null"

instance (f : Frag) : Decidable f.taggable := by
  unfold Frag.taggable; infer_instance

inductive VTitle where
  | minimum
  | maximum

def Frag.setVal (f : Frag) : VTitle → Int → Frag
  | .minimum, v => f.setMin v
  | .maximum, v => f.setMax v

-- Shared control flow of applyValueTag (lines 163-170) and applyTypenameTag
-- (lines 178-185): apply the field update to the fragment itself when its
-- `type` is set and differs from "null", else apply it to every such leaf of
-- its `oneOf` list, else do nothing.
def tagLeaf (top : Frag → Frag) (g : Frag) : Frag :=
  if g.taggable then top g else g

def tagShape (top : Frag → Frag) (f : Frag) : Frag :=
  if f.taggable then top f
  else
    match f.oneOf with
    | some l => f.setOneOf (l.map (tagLeaf top))
    | none => f

-- applyValueTag (lines 163-170): `schemaObject[title] = value`
def applyValueTag (f : Frag) (title : VTitle) (v : Int) : Frag :=
  tagShape (fun g => g.setVal title v) f

-- applyTypenameTag (lines 178-185): `schemaObject.type = name`
def applyTypenameTag (f : Frag) (name : String) : Frag :=
  tagShape (fun g => g.setTy name) f

-- applyTag (lines 193-199)
def applyTag (f : Frag) : Tag → Frag
  | .minimum v => applyValueTag f .minimum v
  | .maximum v => applyValueTag f .maximum v
  | .typeName n => applyTypenameTag f n
  | .typeOther => f
  | .other => f

-- ## tokenObjectToJSON (lines 72-98)

def tokenObjectToJSON : TokenKind → Except String (Option Frag)
  | .stringKw => .ok (some (Frag.typeOnly "string"))
  | .numberKw => .ok (some (Frag.typeOnly "number"))
  | .booleanKw => .ok (some (Frag.typeOnly "boolean"))
  | .anyKw => .ok (some (Frag.oneOfF [Frag.typeOnly "object", Frag.typeOnly "number", Frag.typeOnly "string"]))
  | .nullKw => .ok (some (Frag.typeOnly "null"))
  | .undefinedKw => .ok none
  | .symbolKw => .ok none
  | .objectKw => .ok (some (Frag.typeOnly "object"))
  | .functionTok => .ok none
  | .other kind => .error ("unknown type  (" ++ toString kind ++ ") in parameterlist")

-- ## maptypeDescName (lines 107-114)

def maptypeDescName (docRoot : String) (name : String) : Option Frag :=
  if name = "Object" then some (Frag.typeOnly "object")
  else if name = "String" then some (Frag.typeOnly "string")
  else if name = "Number" then some (Frag.typeOnly "number")
  else if name = "Boolean" then some (Frag.typeOnly "boolean")
  else if name = "Function" then none
  else some (Frag.refOnly (docRoot ++ "/" ++ name))

-- ## The declaration registry (the global `symtab`, line 60)

structure Member where
  desc : Frag
  type : TypeNode
  optional : Bool

structure TypedId where
  id : String
  type : TypeNode

structure DecoratedFunction where
  className : String
  comment : Option String
  decorates : String
  decoratorArgs : List String
  methodParameters : List TypedId
  returnType : Option TypeNode
  type : String

-- One symtab entry; the source stores JS objects with differing key sets per
-- entry kind ("type" / "controller" / "router"); here every entry carries
-- every field, absent fields taking their neutral value.  `defn` models the
-- `def` key written by symtabToSchemaDefinitions (line 419).
structure Entry where
  type : String
  name : String
  fileName : String
  comment : Option String
  members : List (String × Member)
  relevant : Bool
  methods : List DecoratedFunction
  args : List String
  defn : Option Frag

abbrev Symtab := List (String × Entry)

def lookupKV {α : Type} : List (String × α) → String → Option α
  | [], _ => none
  | (k, v) :: rest, n => if k = n then some v else lookupKV rest n

def lookupSym (st : Symtab) (n : String) : Option Entry := lookupKV st n

-- JS `symtab[k] = e`: replace in place if the key exists, else append.
def insertSym : Symtab → String → Entry → Symtab
  | [], n, e => [(n, e)]
  | (k, e0) :: rest, n, e => if k = n then (k, e) :: rest else (k, e0) :: insertSym rest n e

def mapEntry : Symtab → String → (Entry → Entry) → Symtab
  | [], _, _ => []
  | (k, v) :: rest, n, f =>
    if k = n then (k, f v) :: mapEntry rest n f else (k, v) :: mapEntry rest n f

-- `symtab[typeName].relevant = true` (line 309)
def setRelevant (st : Symtab) (n : String) : Symtab :=
  mapEntry st n (fun e => { e with relevant := true })

-- Entry literals created by the source:
-- addController (line 541)
def controllerEntry (className fileName : String) (comment : Option String) : Entry :=
  { type := "controller", name := className, fileName := fileName, comment := comment,
    members := [], relevant := false, methods := [], args := [], defn := none }

-- addRouter (line 552)
def routerEntry (className fileName : String) (comment : Option String) : Entry :=
  { type := "router", name := className, fileName := fileName, comment := comment,
    members := [], relevant := false, methods := [], args := [], defn := none }

-- visit, class/interface declaration (lines 1120, 1127); the source stores no
-- `name` key on type entries, modelled by the empty string.
def typeEntry (members : List (String × Member)) (comment : Option String) : Entry :=
  { type := "type", name := "", fileName := "", comment := comment,
    members := members, relevant := false, methods := [], args := [], defn := none }

-- addController (lines 539-542): throws on an existing entry of the same name.
def addController (className fileName : String) (comment : Option String) (st : Symtab) :
    Except String Symtab :=
  if (lookupSym st className).isSome then
    .error ("multiple references to same class: " ++ className)
  else .ok (insertSym st className (controllerEntry className fileName comment))

-- addRouter (lines 551-553): no uniqueness check, unconditional assignment.
def addRouter (className fileName : String) (comment : Option String) (st : Symtab) : Symtab :=
  insertSym st className (routerEntry className fileName comment)

-- ## typeToJSON (lines 217-270) and unionToJSON (lines 125-135)

-- The options object: `docRoot` (line 224) and `expandRefs` (line 236).
structure TOpts where
  docRoot : Option String
  expandRefs : Bool

def optsDocRoot : Option TOpts → String
  | some o => match o.docRoot with
    | some d => d
    | none => "#/definitions"
  | none => "#/definitions"

def optsExpand : Option TOpts → Bool
  | some o => o.expandRefs
  | none => false

mutual

def typeToJSON (st : Symtab) (opts : Option TOpts) : TypeNode → Except String (Option Frag)
  | .token k => tokenObjectToJSON k
  | .arrayType e =>
    match typeToJSON st opts e with
    | .error msg => .error msg
    | .ok sub => .ok (some (Frag.arrayOf sub))
  | .typeRef name args =>
    if name = "Array" then
      -- line 229-233: treats Array<T> as an array of its first type argument;
      -- with no type arguments the source faults on typeArguments[0].
      match args with
      | a :: _ =>
        match typeToJSON st opts a with
        | .error msg => .error msg
        | .ok sub => .ok (some (Frag.arrayOf sub))
      | [] => .error "TypeError: typeArguments of Array reference is undefined"
    else
      match maptypeDescName (optsDocRoot opts) name with
      | none => .ok none
      | some f =>
        if f.ref.isSome ∧ optsExpand opts then
          match lookupSym st name with
          | none => .error ("undefined type " ++ name)
          | some e => .ok e.defn
        else .ok (some f)
  | .unionType ms =>
    match unionElems st opts ms with
    | .error msg => .error msg
    | .ok l => .ok (some (Frag.oneOfF l))
  | .literalType v => .ok (some (.mk (some v.typeofLit) none (some [Frag.formatOnly v]) none none none none none none none none))
  | .funcType => .ok none
  | .typeQuery => .ok none
  | .parenType => .ok none
  | .otherNode kind => .error ("unknown type (" ++ toString kind ++ ") in parameterlist")
termination_by structural t => t

def unionElems (st : Symtab) (opts : Option TOpts) : List TypeNode → Except String (List Frag)
  | [] => .ok []
  | t :: rest =>
    match typeToJSON st opts t with
    | .error msg => .error msg
    | .ok none =>
      unionElems st opts rest
    | .ok (some f) =>
      match unionElems st opts rest with
      | .error msg => .error msg
      | .ok l => .ok (f :: l)
termination_by structural l => l

end

-- ## markAsRelevant (lines 299-322) and markUnionAsRelevant (lines 279-283)

-- Three-valued result of a fueled computation over the mutable symtab.
inductive Res (α : Type) where
  | ok (a : α)
  | err (msg : String)
  | timeout

-- Fueled embedding of the mutually recursive markAsRelevant (on one node,
-- `Sum.inl`) and its iteration over a node list (`Sum.inr`, covering the
-- type-argument loop, the member loop and markUnionAsRelevant).  Fuel is
-- consumed at every recursive call; the source bounds the recursion only by
-- the JS call stack, so exceeding every fuel value models nontermination.
def markFuel : Nat → TypeNode ⊕ List TypeNode → Symtab → Res Symtab
  | 0, _, _ => .timeout
  | fuel + 1, .inl t, st =>
    match t with
    | .arrayType e => markFuel fuel (.inl e) st
    | .typeRef name args =>
      match lookupSym st name with
      | none => .err ("undefined type " ++ name)
      | some _ =>
        let st1 := setRelevant st name
        match markFuel fuel (.inr args) st1 with
        | .ok st2 =>
          match lookupSym st2 name with
          | some e2 => markFuel fuel (.inr (e2.members.map (fun kv => kv.2.type))) st2
          | none => .ok st2
        | r => r
    | .unionType ms => markFuel fuel (.inr ms) st
    | _ => .ok st
  | _ + 1, .inr [], st => .ok st
  | fuel + 1, .inr (t :: rest), st =>
    match markFuel fuel (.inl t) st with
    | .ok st1 => markFuel fuel (.inr rest) st1
    | r => r

def markAsRelevantF (fuel : Nat) (t : TypeNode) (st : Symtab) : Res Symtab :=
  markFuel fuel (.inl t) st

def markListF (fuel : Nat) (ts : List TypeNode) (st : Symtab) : Res Symtab :=
  markFuel fuel (.inr ts) st

-- ## parameterListToJSON (lines 338-364)

structure PlistObj where
  className : String
  method : String
  parameterNames : List String
  schema : Frag

-- The parameter loop (lines 342-349): translate each parameter with no
-- options; on a non-null fragment record the property and mark the parameter
-- type relevant.
def plistParams (fuel : Nat) : List TypedId → Symtab → Res (List (String × Frag) × Symtab)
  | [], st => .ok ([], st)
  | p :: rest, st =>
    match typeToJSON st none p.type with
    | .error msg => .err msg
    | .ok none => plistParams fuel rest st
    | .ok (some f) =>
      match markFuel fuel (.inl p.type) st with
      | .ok st1 =>
        match plistParams fuel rest st1 with
        | .ok (props, st2) => .ok ((p.id, f) :: props, st2)
        | r => r
      | .err msg => .err msg
      | .timeout => .timeout

def parameterListToJSON (fuel : Nat) (st : Symtab) (m : DecoratedFunction) :
    Res (PlistObj × Symtab) :=
  match plistParams fuel m.methodParameters st with
  | .ok (props, st1) =>
    match m.returnType with
    | none =>
      -- line 350 applies markAsRelevant to a missing return annotation,
      -- which faults on `undefined.constructor` in the source.
      .err "TypeError: markAsRelevant of an undefined return type"
    | some rt =>
      match markFuel fuel (.inl rt) st1 with
      | .ok st2 =>
        .ok ({ className := m.className, method := m.decorates,
               parameterNames := m.methodParameters.map (fun p => p.id),
               schema := .mk (some "object") none none none none none none
                 (some props) none
                 (some ("Parameter list for " ++ m.decorates))
                 (some (m.decorates ++ " plist")) }, st2)
      | .err msg => .err msg
      | .timeout => .timeout
  | .err msg => .err msg
  | .timeout => .timeout

-- ## connectMethods (lines 389-397)

def connectMethods : List DecoratedFunction → Symtab → Symtab
  | [], st => st
  | e :: rest, st =>
    match lookupSym st e.className with
    | some _ =>
      connectMethods rest (mapEntry st e.className (fun ent => { ent with methods := ent.methods ++ [e] }))
    | none => connectMethods rest st

-- ## symtabToSchemaDefinitions (lines 405-423)

def defFragOf (e : Entry) : Frag :=
  let required := e.members.filterMap (fun kv => if kv.2.optional then none else some kv.1)
  .mk (some "object") none none none none none none
    (some (e.members.map (fun kv => (kv.1, kv.2.desc))))
    (if required = [] then none else some required)
    e.comment none

-- Returns both the definitions map and the symtab updated with each entry's
-- `def` field (the source mutates `symtab[ikey].def`, line 419).
def symtabToSchemaDefinitions : Symtab → Symtab × List (String × Frag)
  | [] => ([], [])
  | (k, e) :: rest =>
    let p := symtabToSchemaDefinitions rest
    if e.type = "type" ∧ e.relevant = true then
      ((k, { e with defn := some (defFragOf e) }) :: p.1, (k, defFragOf e) :: p.2)
    else ((k, e) :: p.1, p.2)

-- ## symtabToControllerDefinitions / symtabToRouterDefinitions (430-481)

structure Controller where
  args : List String
  className : String
  fileName : String
  comment : Option String
  methods : List DecoratedFunction
  path : String

structure Router where
  args : List String
  className : String
  fileName : String
  comment : Option String
  methods : List DecoratedFunction
  path : String

def symtabToControllerDefinitions : Symtab → List Controller
  | [] => []
  | (_, e) :: rest =>
    if e.type = "controller" then
      { path := match e.args with
          | a :: _ => a
          | [] => e.name,
        className := e.name, fileName := e.fileName, comment := e.comment,
        methods := e.methods, args := e.args } :: symtabToControllerDefinitions rest
    else symtabToControllerDefinitions rest

def symtabToRouterDefinitions : Symtab → List Router
  | [] => []
  | (_, e) :: rest =>
    if e.type = "router" then
      { path := match e.args with
          | a :: _ => a
          | [] => e.name,
        className := e.name, fileName := e.fileName, comment := e.comment,
        methods := e.methods, args := e.args } :: symtabToRouterDefinitions rest
    else symtabToRouterDefinitions rest

-- ## Path-prefix stripping (lines 616-617, 696-697, 780-781)

def stripSlashDot (s : String) : String :=
  let cs := s.data
  let cs1 := match cs with
    | '/' :: rest => rest
    | l => l
  let cs2 := if cs1.getLast? = some '.' then cs1.dropLast else cs1
  String.mk cs2

-- ## The OpenAPI emitter: genSwaggerPaths (607-681) / genSwaggerRoutes (691-700)

structure SwaggerParam where
  name : String
  inForm : String
  required : Bool
  schema : Option Frag

inductive SwaggerResponse where
  | ok200 (schema : Frag)
  | no204

structure SwaggerOp where
  tags : List String
  operationId : String
  description : Option String
  parameters : List SwaggerParam
  response : SwaggerResponse

def expandOpts : Option TOpts := some { docRoot := some "#/components/schemas", expandRefs := true }

-- The parameter loop (lines 655-672).
def genSwaggerParams (st : Symtab) (inForm : String) : List TypedId → Except String (List SwaggerParam)
  | [] => .ok []
  | p :: rest =>
    match typeToJSON st expandOpts p.type with
    | .error msg => .error msg
    | .ok ptd =>
      let newParams :=
        match ptd with
        | some f =>
          if f.ty = some "object" then
            (f.props.getD []).map (fun kv =>
              { name := kv.1, inForm := inForm,
                required := (f.req.getD []).contains kv.1, schema := some kv.2 })
          else [{ inForm := inForm, name := p.id, required := true, schema := some f }]
        | none => [{ inForm := inForm, name := p.id, required := true, schema := none }]
      match genSwaggerParams st inForm rest with
      | .error msg => .error msg
      | .ok l => .ok (newParams ++ l)

-- The return-type translation of the method loop (lines 633-644): translate
-- the annotated return type with no options; when its name is Promise,
-- retranslate the first type argument with expandRefs forced true.
def genSwaggerReturn (st : Symtab) (m : DecoratedFunction) : Except String (Option Frag) :=
  match m.returnType with
  | none => .ok none
  | some rt =>
    match typeToJSON st none rt with
    | .error msg => .error msg
    | .ok r0 =>
      match rt with
      | .typeRef n args =>
        if n = "Promise" then
          match args with
          | a :: _ => typeToJSON st expandOpts a
          | [] => .error "TypeError: typeArguments of Promise return type is undefined"
        else .ok r0
      | _ =>
        -- line 635 calls tsany.getTextOfNode on the missing typeName of a
        -- non-reference return annotation, which faults in the source.
        .error "TypeError: getTextOfNode of an undefined typeName"

-- `responses["200"] = {..., schema}` on a non-null translation, else a 204
-- with no schema (lines 647-648).
def respOf : Option Frag → SwaggerResponse
  | some f => .ok200 f
  | none => .no204

-- The body of the method loop (lines 622-677), yielding the path id, the verb
-- and the operation object.
def genSwaggerMethod (st : Symtab) (pfx p1 : String) (m : DecoratedFunction) :
    Except String (String × String × SwaggerOp) :=
  let p2 := m.decorates
  let methodType := m.type
  let inputForm := if methodType = "post" ∨ methodType = "all" ∨ methodType = "delete" then "body" else "query"
  match genSwaggerReturn st m with
  | .error msg => .error msg
  | .ok rtd =>
    match genSwaggerParams st inputForm m.methodParameters with
    | .error msg => .error msg
    | .ok params =>
      .ok ("/" ++ pfx ++ "/" ++ p1 ++ "/" ++ p2, methodType,
        { tags := [p1], operationId := p2,
          description := if m.comment ≠ none ∧ m.comment ≠ some "" then m.comment else none,
          parameters := params,
          response := respOf rtd })

abbrev PathsMap := List (String × (String × SwaggerOp))

-- `paths[pathId] = {}; paths[pathId][methodType] = path` (lines 676-677).
def insertPath : PathsMap → String → String × SwaggerOp → PathsMap
  | [], pid, v => [(pid, v)]
  | (k, v0) :: rest, pid, v => if k = pid then (k, v) :: rest else (k, v0) :: insertPath rest pid v

def genSwaggerMethodsFold (st : Symtab) (pfx p1 : String) :
    List DecoratedFunction → PathsMap → Except String PathsMap
  | [], acc => .ok acc
  | m :: rest, acc =>
    match genSwaggerMethod st pfx p1 m with
    | .error msg => .error msg
    | .ok (pid, verb, op) => genSwaggerMethodsFold st pfx p1 rest (insertPath acc pid (verb, op))

def genSwaggerPathsModel (st : Symtab) (pfx : String) :
    List Controller → PathsMap → Except String PathsMap
  | [], acc => .ok acc
  | c :: rest, acc =>
    match genSwaggerMethodsFold st pfx (stripSlashDot c.path) c.methods acc with
    | .ok acc1 => genSwaggerPathsModel st pfx rest acc1
    | .error msg => .error msg

def genSwaggerRoutesGo (st : Symtab) (controllers : List Controller) :
    List Router → PathsMap → Except String PathsMap
  | [], acc => .ok acc
  | r :: rest, _ =>
    match genSwaggerPathsModel st (stripSlashDot r.path) controllers [] with
    | .ok acc1 => genSwaggerRoutesGo st controllers rest acc1
    | .error msg => .error msg

-- genSwaggerRoutes (691-700): each router overwrites `def.paths`; only the
-- last router's paths survive.
def genSwaggerRoutesModel (st : Symtab) (routers : List Router) (controllers : List Controller) :
    Except String PathsMap :=
  match routers with
  | [] => .error "No Router Definitions Found"
  | _ => genSwaggerRoutesGo st controllers routers []

-- ## The route emitter: genRoutes (719-789), endpoint and mount fragments

-- `let path = endpointName; if(decoratorArgs.length != 0) path = args[0]`
-- (lines 757-759).
def routePathSegment (m : DecoratedFunction) : String :=
  match m.decoratorArgs with
  | [] => m.decorates
  | a :: _ => a

-- The per-endpoint handler block (lines 765-774), rendered verbatim.
def genRoutesEndpointBlock (m : DecoratedFunction) : String :=
  let rfunc := m.type
  let endpointName := m.decorates
  let p := routePathSegment m
  "\n  apex.getRouter(\x27" ++ m.className ++ "\x27)." ++ rfunc ++ "(\x27/" ++ p ++
    "\x27, async(req,res,next) => \x7b\n" ++
  "    try \x7b\n" ++
  "      const controller = new " ++ m.className ++ "Module.default(apex.app,binding,req,res,next);\n" ++
  (if rfunc = "get" ∨ rfunc = "put" then
      "      const x = await controller." ++ endpointName ++ "(req.query);\n\n"
    else
      "      const x = await controller." ++ endpointName ++ "(req.body);\n\n") ++
  "      success_response(x,req,res,next);\n" ++
  "    \x7d\n" ++
  "    catch(e) \x7b error_response(e,req,res,next); \x7d\n" ++
  "  \x7d);\n"

-- The endpoint loop of genRoutes (line 754) emits one block per endpoint of
-- the full endpoint list, regardless of controller attachment.
def genRoutesEndpointsSection : List DecoratedFunction → String
  | [] => ""
  | m :: rest => genRoutesEndpointBlock m ++ genRoutesEndpointsSection rest

-- The controller mount line (line 783).
def genRoutesMountLine (c : Controller) : String :=
  "  apex.app.use(apex.prefix + \x27/" ++ stripSlashDot c.path ++ "\x27,apex.getRouter(\x27" ++
    c.className ++ "\x27));\n"

-- ## genSources (805-846) and the surrounding generate pass (928-1150)

structure CheckEntry where
  key : String
  parameterNames : List String
  schema : Frag

-- The per-endpoint loop of genSources (lines 825-830): build the parameter
-- list schema, force `required = parameterNames` (an empty JS array is
-- truthy, so the assignment happens unconditionally) and emit a check entry
-- keyed `className.method`.
def genSourcesLoop (fuel : Nat) : List DecoratedFunction → Symtab → Res (List CheckEntry × Symtab)
  | [], st => .ok ([], st)
  | m :: rest, st =>
    match parameterListToJSON fuel st m with
    | .ok (x, st1) =>
      match genSourcesLoop fuel rest st1 with
      | .ok (entries, st2) =>
        .ok ({ key := x.className ++ "." ++ x.method, parameterNames := x.parameterNames,
               schema := x.schema.setReq x.parameterNames } :: entries, st2)
      | r => r
    | .err msg => .err msg
    | .timeout => .timeout

structure GenArtifacts where
  checkEntries : List CheckEntry
  definitions : List (String × Frag)
  swaggerPaths : PathsMap
  routesEndpoints : String
  routesMounts : List String

-- genSources (805-846): controller/router lists are read first, then the
-- check-entry loop runs (marking relevance), then the definitions map is
-- frozen, then the swagger and route artifacts are produced.  No error is
-- caught here: any error aborts the whole generation.
def genSourcesModel (fuel : Nat) (items : List DecoratedFunction) (st : Symtab) :
    Res GenArtifacts :=
  let controllers := symtabToControllerDefinitions st
  let routers := symtabToRouterDefinitions st
  match genSourcesLoop fuel items st with
  | .ok (entries, st2) =>
    let p := symtabToSchemaDefinitions st2
    match genSwaggerRoutesModel p.1 routers controllers with
    | .ok paths =>
      .ok { checkEntries := entries, definitions := p.2, swaggerPaths := paths,
            routesEndpoints := genRoutesEndpointsSection items,
            routesMounts := controllers.map genRoutesMountLine }
    | .error msg => .err msg
  | .err msg => .err msg
  | .timeout => .timeout

-- Pass-1 declarations as reported by the external Source Analyzer's AST walk.
inductive Decl where
  | controllerDecl (name fileName : String) (comment : Option String) (args : List String)
  | routerDecl (name fileName : String) (comment : Option String) (args : List String)
  | typeDecl (name : String) (members : List (String × Member)) (comment : Option String)

def setArgs (st : Symtab) (n : String) (args : List String) : Symtab :=
  mapEntry st n (fun e => { e with args := args })

-- The visit pass (lines 1102-1110): every error thrown while processing a
-- decorated declaration is caught and logged (`catch(e) { console.log(e); }`)
-- and the walk continues; class/interface declarations are registered
-- unconditionally (lines 1120, 1127).
def visitDecls : List Decl → Symtab → Symtab
  | [], st => st
  | .controllerDecl n f c args :: rest, st =>
    match addController n f c st with
    | .ok st1 => visitDecls rest (setArgs st1 n args)
    | .error _ => visitDecls rest st
  | .routerDecl n f c args :: rest, st => visitDecls rest (setArgs (addRouter n f c st) n args)
  | .typeDecl n ms c :: rest, st => visitDecls rest (insertSym st n (typeEntry ms c))

-- generate (lines 928-1150): pass 1 builds the symtab, connectMethods links
-- endpoints to controllers, genSources emits the three artifacts.
def generateModel (fuel : Nat) (decls : List Decl) (endpoints : List DecoratedFunction) :
    Res GenArtifacts :=
  genSourcesModel fuel endpoints (connectMethods endpoints (visitDecls decls []))

-- ## Concrete inputs used by the claim theorems

-- A cyclic pair of type declarations: A has a member of type B, B has a
-- member of type A (the members' stored fragments are the $ref fragments the
-- member pass would record).
def memberRef (n : String) : Member :=
  { desc := Frag.refOnly ("#/components/schemas/" ++ n), type := .typeRef n [], optional := false }

def cyclicPair (ra rb : Bool) : Symtab :=
  [("A", { typeEntry [("b", memberRef "B")] none with relevant := ra }),
   ("B", { typeEntry [("a", memberRef "A")] none with relevant := rb })]

lemma cyclicPair_timeout : ∀ fuel ra rb,
    markFuel fuel (.inl (.typeRef "A" [])) (cyclicPair ra rb) = .timeout ∧
    markFuel fuel (.inl (.typeRef "B" [])) (cyclicPair ra rb) = .timeout ∧
    markFuel fuel (.inr [.typeRef "A" []]) (cyclicPair ra rb) = .timeout ∧
    markFuel fuel (.inr [.typeRef "B" []]) (cyclicPair ra rb) = .timeout := by
  intro fuel
  induction fuel with
  | zero => exact fun _ _ => ⟨rfl, rfl, rfl, rfl⟩
  | succ f ih =>
    intro ra rb
    refine ⟨?_, ?_, ?_, ?_⟩
    · cases f with
      | zero => rfl
      | succ g => exact (ih true rb).2.2.2
    · cases f with
      | zero => rfl
      | succ g => exact (ih ra true).2.2.1
    · show (match markFuel f (.inl (.typeRef "A" [])) (cyclicPair ra rb) with
            | .ok st1 => markFuel f (.inr []) st1
            | r => r) = .timeout
      rw [(ih ra rb).1]
    · show (match markFuel f (.inl (.typeRef "B" [])) (cyclicPair ra rb) with
            | .ok st1 => markFuel f (.inr []) st1
            | r => r) = .timeout
      rw [(ih ra rb).2.1]

/-- C1: the source markAsRelevant tracks no visited set, so on a registry in
which A has a member of type B and B has a member of type A, marking a
reference to A exceeds every recursion-depth bound (the run does not
terminate), instead of terminating and marking both exactly once. -/
theorem c1_markAsRelevant_cyclic_nonterminating :
    ∀ fuel, markAsRelevantF fuel (.typeRef "A" []) (cyclicPair false false) = .timeout :=
  fun fuel => (cyclicPair_timeout fuel false false).1

/-- C10: translating the `any` primitive keyword yields exactly
oneOf[object, number, string]; it yields neither no schema nor the bare
object schema. -/
theorem c10_any_keyword_translation :
    tokenObjectToJSON .anyKw =
      .ok (some (Frag.oneOfF [Frag.typeOnly "object", Frag.typeOnly "number", Frag.typeOnly "string"])) ∧
    tokenObjectToJSON .anyKw ≠ .ok none ∧
    tokenObjectToJSON .anyKw ≠ .ok (some (Frag.typeOnly "object")) := by
  refine ⟨rfl, ?_, ?_⟩
  · intro h
    simp [tokenObjectToJSON] at h
  · intro h
    simp only [tokenObjectToJSON, Except.ok.injEq, Option.some.injEq] at h
    exact absurd (congrArg Frag.ty h) (by decide)

-- ## Lemmas about insertSym

lemma lookup_insertSym_self (st : Symtab) (n : String) (e : Entry) :
    lookupKV (insertSym st n e) n = some e := by
  induction st with
  | nil => simp [insertSym, lookupKV]
  | cons kv rest ih =>
    by_cases h : kv.1 = n
    · simp [insertSym, lookupKV, h]
    · simp only [insertSym, h, if_false, lookupKV, if_neg h]
      exact ih

lemma lookup_insertSym_other : ∀ (st : Symtab) (n : String) (e : Entry) (m : String), m ≠ n →
    lookupKV (insertSym st n e) m = lookupKV st m
  | [], n, e, m, h => by
    simp only [insertSym, lookupKV]
    rw [if_neg (Ne.symm h)]
  | (k, v) :: rest, n, e, m, h => by
    by_cases hk : k = n
    · simp only [insertSym, if_pos hk, lookupKV]
      rw [if_neg (fun hm : k = m => h (hm.symm.trans hk)),
        if_neg (fun hm : k = m => h (hm.symm.trans hk))]
    · simp only [insertSym, if_neg hk, lookupKV]
      by_cases hm : k = m
      · rw [if_pos hm, if_pos hm]
      · rw [if_neg hm, if_neg hm]
        exact lookup_insertSym_other rest n e m h

/-- C8 amended: addRouter performs no uniqueness check: it always succeeds,
the new router entry replaces any existing entry of the same class name, and
all other entries are untouched. -/
theorem c8_amended_addRouter_overwrites (st : Symtab) (n f : String) (c : Option String) :
    lookupSym (addRouter n f c st) n = some (routerEntry n f c) ∧
    ∀ m, m ≠ n → lookupSym (addRouter n f c st) m = lookupSym st m := by
  constructor
  · exact lookup_insertSym_self st n _
  · intro m hm
    exact lookup_insertSym_other st n _ m hm

/-- C8 amended witness: overwriting a concrete existing entry named R while
leaving the lookup of another name unchanged. -/
theorem c8_amended_witness :
    lookupSym (addRouter "R" "new.ts" none [("R", controllerEntry "R" "old.ts" none)]) "R" =
      some (routerEntry "R" "new.ts" none) ∧
    ("X" ≠ "R" ∧
      lookupSym (addRouter "R" "new.ts" none [("R", controllerEntry "R" "old.ts" none)]) "X" =
        lookupSym [("R", controllerEntry "R" "old.ts" none)] "X") :=
  ⟨(c8_amended_addRouter_overwrites [("R", controllerEntry "R" "old.ts" none)] "R" "new.ts" none).1,
   by decide,
   (c8_amended_addRouter_overwrites [("R", controllerEntry "R" "old.ts" none)] "R" "new.ts" none).2
     "X" (by decide)⟩

/-- C8 counterexample: declaring a router whose class name R is already bound
does not raise any error (addRouter is a total function into Symtab) and the
existing entry is overwritten, contrary to the claimed uniqueness contract. -/
theorem c8_counterexample :
    addRouter "R" "new.ts" none [("R", controllerEntry "R" "old.ts" none)] =
      [("R", routerEntry "R" "new.ts" none)] ∧
    routerEntry "R" "new.ts" none ≠ controllerEntry "R" "old.ts" none := by
  constructor
  · rfl
  · intro h
    exact absurd (congrArg Entry.type h) (by decide)

-- ## C5: the endpoint whose decorator argument differs from the method name

def mC5 : DecoratedFunction :=
  { className := "Widgets", comment := none, decorates := "list", decoratorArgs := ["special"],
    methodParameters := [], returnType := some (.typeRef "Widget" []), type := "get" }

set_option maxRecDepth 40000 in
/-- C5: the OpenAPI emitter builds the endpoint path segment from the method
name (`decorates`) unconditionally, ignoring the decorator argument, while
the route emitter uses the decorator argument; on an endpoint `list`
decorated with argument `special` the two emitters disagree, contradicting
the claim (and the emitter's own source comment, analyzer.ts lines 619-621).
-/
theorem c5_swagger_ignores_decorator_argument :
    genSwaggerMethod [] "api" "widgets" mC5 =
      .ok ("/api/widgets/list", "get",
        { tags := ["widgets"], operationId := "list", description := none, parameters := [],
          response := .ok200 (Frag.refOnly "#/definitions/Widget") }) ∧
    routePathSegment mC5 = "special" ∧
    "/api/widgets/list" ≠ "/api/widgets/" ++ routePathSegment mC5 ∧
    (∃ s1 s2, genRoutesEndpointBlock mC5 = s1 ++ "\x27/special\x27" ++ s2) := by
  refine ⟨rfl, rfl, by decide, ?_⟩
  exact ⟨"\n  apex.getRouter(\x27Widgets\x27).get(",
    ", async(req,res,next) => \x7b\n    try \x7b\n      const controller = new WidgetsModule.default(apex.app,binding,req,res,next);\n      const x = await controller.list(req.query);\n\n      success_response(x,req,res,next);\n    \x7d\n    catch(e) \x7b error_response(e,req,res,next); \x7d\n  \x7d);\n",
    rfl⟩

-- ## C3: two controllers declared with the same class name

def declsC3 : List Decl :=
  [.controllerDecl "C" "f1.ts" none [], .controllerDecl "C" "f2.ts" none [],
   .routerDecl "R" "r.ts" none []]

set_option maxRecDepth 40000 in
/-- C3: declaring a second controller named C raises the duplicate error
inside addController, but the visit pass catches and logs every decorator
error and continues (analyzer.ts lines 1102-1110): the first declaration is
kept and the whole generation run completes, producing all three artifacts
instead of aborting before any artifact is written. -/
theorem c3_duplicate_controller_run_completes :
    addController "C" "f2.ts" none (visitDecls [.controllerDecl "C" "f1.ts" none []] []) =
      .error "multiple references to same class: C" ∧
    lookupSym (visitDecls declsC3 []) "C" = some (controllerEntry "C" "f1.ts" none) ∧
    (∃ arts, generateModel 5 declsC3 [] = .ok arts) := by
  refine ⟨rfl, rfl, ⟨_, rfl⟩⟩

-- ## C6 counterexample input: a non-Promise reference return type

def widgetDef : Frag :=
  .mk (some "object") none none none none none none
    (some [("id", Frag.typeOnly "number")]) (some ["id"]) none none

def stC6 : Symtab :=
  [("Widget",
    { typeEntry [("id", { desc := Frag.typeOnly "number", type := .token .numberKw, optional := false })] none with
      relevant := true, defn := some widgetDef })]

def mC6 : DecoratedFunction :=
  { className := "W", comment := none, decorates := "getw", decoratorArgs := [],
    methodParameters := [], returnType := some (.typeRef "Widget" []), type := "get" }

/-- C6 counterexample: for an endpoint whose return type is the non-Promise
reference Widget, the emitted 200 schema is the unexpanded
$ref #/definitions/Widget (the return type is translated with no options,
analyzer.ts line 634), not the inlined definition that the expandRefs
translation produces; so the 200 schema is not derived with expandRefs
forced true. -/
theorem c6_counterexample :
    genSwaggerMethod stC6 "api" "w" mC6 =
      .ok ("/api/w/getw", "get",
        { tags := ["w"], operationId := "getw", description := none, parameters := [],
          response := .ok200 (Frag.refOnly "#/definitions/Widget") }) ∧
    typeToJSON stC6 expandOpts (.typeRef "Widget" []) = .ok (some widgetDef) ∧
    Frag.refOnly "#/definitions/Widget" ≠ widgetDef := by
  refine ⟨rfl, rfl, ?_⟩
  intro h
  exact absurd (congrArg Frag.ref h) (by decide)

-- ## C9: algebra of tag application

lemma Frag.ty_setVal (g : Frag) (ti : VTitle) (v : Int) : (g.setVal ti v).ty = g.ty := by
  cases g; cases ti <;> rfl

lemma Frag.ty_setTy (g : Frag) (n : String) : (g.setTy n).ty = some n := by
  cases g; rfl

lemma Frag.ty_setOneOf (g : Frag) (l : List Frag) : (g.setOneOf l).ty = g.ty := by
  cases g; rfl

lemma Frag.oneOf_setOneOf (g : Frag) (l : List Frag) : (g.setOneOf l).oneOf = some l := by
  cases g; rfl

lemma Frag.setOneOf_setOneOf (g : Frag) (a b : List Frag) :
    (g.setOneOf a).setOneOf b = g.setOneOf b := by
  cases g; rfl

lemma Frag.setVal_setVal (g : Frag) (ti : VTitle) (v : Int) :
    (g.setVal ti v).setVal ti v = g.setVal ti v := by
  cases g; cases ti <;> rfl

lemma Frag.setTy_setTy (g : Frag) (a b : String) : (g.setTy a).setTy b = g.setTy b := by
  cases g; rfl

lemma Frag.setMin_setMax_comm (g : Frag) (v w : Int) :
    (g.setVal .minimum v).setVal .maximum w = (g.setVal .maximum w).setVal .minimum v := by
  cases g; rfl

lemma Frag.setVal_setTy_comm (g : Frag) (ti : VTitle) (v : Int) (n : String) :
    (g.setTy n).setVal ti v = (g.setVal ti v).setTy n := by
  cases g; cases ti <;> rfl

lemma taggable_of_ty_eq {f g : Frag} (h : f.ty = g.ty) : f.taggable ↔ g.taggable := by
  unfold Frag.taggable
  rw [h]

lemma taggable_setVal (g : Frag) (ti : VTitle) (v : Int) :
    (g.setVal ti v).taggable ↔ g.taggable :=
  taggable_of_ty_eq (Frag.ty_setVal g ti v)

lemma taggable_setOneOf (g : Frag) (l : List Frag) :
    (g.setOneOf l).taggable ↔ g.taggable :=
  taggable_of_ty_eq (Frag.ty_setOneOf g l)

lemma taggable_setTy (g : Frag) (n : String) (h : n ≠ "null") : (g.setTy n).taggable := by
  unfold Frag.taggable
  rw [Frag.ty_setTy]
  exact ⟨by simp, by simp [h]⟩

lemma tagShape_pos (top : Frag → Frag) (f : Frag) (h : f.taggable) : tagShape top f = top f := by
  unfold tagShape
  rw [if_pos h]

lemma tagShape_neg_some (top : Frag → Frag) (f : Frag) (l : List Frag) (h : ¬ f.taggable)
    (ho : f.oneOf = some l) : tagShape top f = f.setOneOf (l.map (tagLeaf top)) := by
  unfold tagShape
  rw [if_neg h, ho]

lemma tagShape_neg_none (top : Frag → Frag) (f : Frag) (h : ¬ f.taggable)
    (ho : f.oneOf = none) : tagShape top f = f := by
  unfold tagShape
  rw [if_neg h, ho]

lemma tagLeaf_idem (top : Frag → Frag) (ha : ∀ g : Frag, g.taggable → (top g).taggable)
    (hb : ∀ g : Frag, top (top g) = top g) (g : Frag) :
    tagLeaf top (tagLeaf top g) = tagLeaf top g := by
  unfold tagLeaf
  by_cases hg : g.taggable
  · rw [if_pos hg, if_pos (ha g hg), hb]
  · rw [if_neg hg, if_neg hg]

lemma tagLeaf_comm (t1 t2 : Frag → Frag) (ha1 : ∀ g : Frag, g.taggable → (t1 g).taggable)
    (ha2 : ∀ g : Frag, g.taggable → (t2 g).taggable)
    (hc : ∀ g : Frag, t1 (t2 g) = t2 (t1 g)) (g : Frag) :
    tagLeaf t2 (tagLeaf t1 g) = tagLeaf t1 (tagLeaf t2 g) := by
  unfold tagLeaf
  by_cases hg : g.taggable
  · rw [if_pos hg, if_pos hg, if_pos (ha1 g hg), if_pos (ha2 g hg), hc]
  · simp only [if_neg hg]

lemma map_tagLeaf_idem (top : Frag → Frag) (ha : ∀ g : Frag, g.taggable → (top g).taggable)
    (hb : ∀ g : Frag, top (top g) = top g) :
    ∀ l : List Frag, (l.map (tagLeaf top)).map (tagLeaf top) = l.map (tagLeaf top)
  | [] => rfl
  | g :: rest => by
    simp only [List.map_cons, tagLeaf_idem top ha hb g, map_tagLeaf_idem top ha hb rest]

lemma map_tagLeaf_comm (t1 t2 : Frag → Frag) (ha1 : ∀ g : Frag, g.taggable → (t1 g).taggable)
    (ha2 : ∀ g : Frag, g.taggable → (t2 g).taggable)
    (hc : ∀ g : Frag, t1 (t2 g) = t2 (t1 g)) :
    ∀ l : List Frag, (l.map (tagLeaf t1)).map (tagLeaf t2) = (l.map (tagLeaf t2)).map (tagLeaf t1)
  | [] => rfl
  | g :: rest => by
    simp only [List.map_cons, tagLeaf_comm t1 t2 ha1 ha2 hc g, map_tagLeaf_comm t1 t2 ha1 ha2 hc rest]

lemma tagShape_idem (top : Frag → Frag) (ha : ∀ g : Frag, g.taggable → (top g).taggable)
    (hb : ∀ g : Frag, top (top g) = top g) (f : Frag) :
    tagShape top (tagShape top f) = tagShape top f := by
  by_cases h : f.taggable
  · rw [tagShape_pos top f h, tagShape_pos top (top f) (ha f h), hb]
  · cases ho : f.oneOf with
    | none => rw [tagShape_neg_none top f h ho, tagShape_neg_none top f h ho]
    | some l =>
      rw [tagShape_neg_some top f l h ho]
      have h1 : ¬ (f.setOneOf (l.map (tagLeaf top))).taggable :=
        fun hx => h ((taggable_setOneOf f _).mp hx)
      rw [tagShape_neg_some top _ _ h1 (Frag.oneOf_setOneOf f _), Frag.setOneOf_setOneOf,
        map_tagLeaf_idem top ha hb l]

lemma tagShape_comm (t1 t2 : Frag → Frag) (ha1 : ∀ g : Frag, g.taggable → (t1 g).taggable)
    (ha2 : ∀ g : Frag, g.taggable → (t2 g).taggable)
    (hc : ∀ g : Frag, t1 (t2 g) = t2 (t1 g)) (f : Frag) :
    tagShape t2 (tagShape t1 f) = tagShape t1 (tagShape t2 f) := by
  by_cases h : f.taggable
  · rw [tagShape_pos t1 f h, tagShape_pos t2 f h, tagShape_pos t2 (t1 f) (ha1 f h),
      tagShape_pos t1 (t2 f) (ha2 f h), hc]
  · cases ho : f.oneOf with
    | none =>
      rw [tagShape_neg_none t1 f h ho, tagShape_neg_none t2 f h ho,
        tagShape_neg_none t1 f h ho]
    | some l =>
      rw [tagShape_neg_some t1 f l h ho, tagShape_neg_some t2 f l h ho]
      have h1 : ¬ (f.setOneOf (l.map (tagLeaf t1))).taggable :=
        fun hx => h ((taggable_setOneOf f _).mp hx)
      have h2 : ¬ (f.setOneOf (l.map (tagLeaf t2))).taggable :=
        fun hx => h ((taggable_setOneOf f _).mp hx)
      rw [tagShape_neg_some t2 _ _ h1 (Frag.oneOf_setOneOf f _),
        tagShape_neg_some t1 _ _ h2 (Frag.oneOf_setOneOf f _),
        Frag.setOneOf_setOneOf, Frag.setOneOf_setOneOf, map_tagLeaf_comm t1 t2 ha1 ha2 hc l]

def Tag.isValue : Tag → Bool
  | .minimum _ => true
  | .maximum _ => true
  | _ => false

lemma applyTag_isValue_eq (f : Frag) : ∀ t : Tag, t.isValue = true →
    ∃ ti v, applyTag f t = applyValueTag f ti v ∧ ∀ g : Frag, applyTag g t = applyValueTag g ti v
  | .minimum v, _ => ⟨.minimum, v, rfl, fun _ => rfl⟩
  | .maximum v, _ => ⟨.maximum, v, rfl, fun _ => rfl⟩

/-- C9 counterexample: tag application is not order-independent as claimed:
on the fragment {type:"number"}, applying the tag minimum 3 then minimum 5
yields minimum = 5, while the reverse order yields minimum = 3. -/
theorem c9_counterexample :
    applyTag (applyTag (Frag.typeOnly "number") (.minimum 3)) (.minimum 5) ≠
      applyTag (applyTag (Frag.typeOnly "number") (.minimum 5)) (.minimum 3) := by
  intro h
  exact absurd (congrArg Frag.minimum h) (by decide)

/-- C9 amended: tag application is idempotent for minimum/maximum tags, and
for a type tag whose name is not "null"; two tags of distinct titles commute,
provided any type tag among them does not name "null": a minimum tag and a
maximum tag are order-independent, and a value tag and such a type tag are
order-independent.  (Two tags of the same title overwrite each other, and a
type tag naming "null" disables the fragment for later tags, so the claim's
unrestricted order-independence fails.) -/
theorem c9_amended_tag_algebra :
    (∀ (f : Frag) (t : Tag), t.isValue = true → applyTag (applyTag f t) t = applyTag f t) ∧
    (∀ (f : Frag) (n : String), n ≠ "null" →
      applyTag (applyTag f (.typeName n)) (.typeName n) = applyTag f (.typeName n)) ∧
    (∀ (f : Frag) (v w : Int),
      applyTag (applyTag f (.minimum v)) (.maximum w) =
        applyTag (applyTag f (.maximum w)) (.minimum v)) ∧
    (∀ (f : Frag) (t : Tag) (n : String), t.isValue = true → n ≠ "null" →
      applyTag (applyTag f t) (.typeName n) = applyTag (applyTag f (.typeName n)) t) := by
  have haVal : ∀ (ti : VTitle) (v : Int) (g : Frag), g.taggable → (g.setVal ti v).taggable :=
    fun ti v g hg => (taggable_setVal g ti v).mpr hg
  have hbVal : ∀ (ti : VTitle) (v : Int) (g : Frag),
      (g.setVal ti v).setVal ti v = g.setVal ti v :=
    fun ti v g => Frag.setVal_setVal g ti v
  refine ⟨?_, ?_, ?_, ?_⟩
  · intro f t ht
    obtain ⟨ti, v, hf, hall⟩ := applyTag_isValue_eq f t ht
    rw [hall (applyTag f t), hf]
    exact tagShape_idem _ (haVal ti v) (hbVal ti v) f
  · intro f n hn
    exact tagShape_idem _ (fun g _ => taggable_setTy g n hn) (fun g => Frag.setTy_setTy g n n) f
  · intro f v w
    exact tagShape_comm _ _ (haVal .minimum v) (haVal .maximum w)
      (fun g => (Frag.setMin_setMax_comm g v w).symm) f
  · intro f t n ht hn
    obtain ⟨ti, v, hf, hall⟩ := applyTag_isValue_eq f t ht
    rw [hall (applyTag f (Tag.typeName n)), hf]
    show tagShape (fun g => g.setTy n) (tagShape (fun g => g.setVal ti v) f) =
      tagShape (fun g => g.setVal ti v) (tagShape (fun g => g.setTy n) f)
    exact tagShape_comm _ _ (haVal ti v) (fun g _ => taggable_setTy g n hn)
      (fun g => Frag.setVal_setTy_comm g ti v n) f

/-- C9 amended witness: a concrete value tag and type tag with its hypotheses
discharged: minimum 3 and type integer commute on {type:"number"}. -/
theorem c9_amended_witness :
    (Tag.isValue (.minimum 3) = true ∧ "integer" ≠ "null") ∧
    applyTag (applyTag (Frag.typeOnly "number") (.minimum 3)) (.typeName "integer") =
      applyTag (applyTag (Frag.typeOnly "number") (.typeName "integer")) (.minimum 3) :=
  ⟨⟨by decide, by decide⟩,
   c9_amended_tag_algebra.2.2.2 (Frag.typeOnly "number") (.minimum 3) "integer"
     (by decide) (by decide)⟩

-- ## Reachability, shape preservation and undefined references

-- The shape of a registry entry that relevance marking never changes: its
-- kind tag and its member table.
def entryShape (e : Entry) : String × List (String × Member) :=
  (e.type, e.members)

-- Two symtabs agree on every entry's presence, kind and members (they may
-- differ in relevance flags, methods, args and defn).
def SameShape (st st2 : Symtab) : Prop :=
  ∀ n, (lookupSym st n).map entryShape = (lookupSym st2 n).map entryShape

-- The registry-aware reachability relation of the specification: a type node
-- reaches a name through array-element, union-member, type-argument and
-- member-of-registered-type edges.
inductive Reaches (st : Symtab) : TypeNode → String → Prop where
  | here (name : String) (args : List TypeNode) : Reaches st (.typeRef name args) name
  | arr {e : TypeNode} {n : String} (h : Reaches st e n) : Reaches st (.arrayType e) n
  | uni {t : TypeNode} {ms : List TypeNode} {n : String} (hm : t ∈ ms) (h : Reaches st t n) :
      Reaches st (.unionType ms) n
  | arg {t : TypeNode} {m : String} {args : List TypeNode} {n : String} (hm : t ∈ args)
      (h : Reaches st t n) : Reaches st (.typeRef m args) n
  | mem {m : String} {e : Entry} {kv : String × Member} {args : List TypeNode} {n : String}
      (he : lookupSym st m = some e) (hkv : kv ∈ e.members) (h : Reaches st kv.2.type n) :
      Reaches st (.typeRef m args) n

-- Syntactic containment of a named reference that is absent from the
-- registry, along the edges the analyzer traverses within one type node.
inductive ContainsUndef (st : Symtab) : TypeNode → Prop where
  | here {name : String} (args : List TypeNode) (h : lookupSym st name = none) :
      ContainsUndef st (.typeRef name args)
  | inArr {e : TypeNode} (h : ContainsUndef st e) : ContainsUndef st (.arrayType e)
  | inArg {t : TypeNode} {name : String} {args : List TypeNode} (hm : t ∈ args)
      (h : ContainsUndef st t) : ContainsUndef st (.typeRef name args)
  | inUnion {t : TypeNode} {ms : List TypeNode} (hm : t ∈ ms) (h : ContainsUndef st t) :
      ContainsUndef st (.unionType ms)

lemma sameShape_refl (st : Symtab) : SameShape st st := fun _ => rfl

lemma sameShape_trans {a b c : Symtab} (h1 : SameShape a b) (h2 : SameShape b c) :
    SameShape a c := fun n => (h1 n).trans (h2 n)

lemma sameShape_symm {a b : Symtab} (h : SameShape a b) : SameShape b a :=
  fun n => (h n).symm

lemma sameShape_lookup_some {st st2 : Symtab} (h : SameShape st st2) {n : String} {e2 : Entry}
    (h2 : lookupSym st2 n = some e2) :
    ∃ e, lookupSym st n = some e ∧ e.type = e2.type ∧ e.members = e2.members := by
  have hn := h n
  rw [h2] at hn
  cases he : lookupSym st n with
  | none => rw [he] at hn; simp at hn
  | some e =>
    rw [he] at hn
    simp only [Option.map_some', Option.some.injEq, entryShape, Prod.mk.injEq] at hn
    exact ⟨e, rfl, hn.1, hn.2⟩

lemma sameShape_lookup_none {st st2 : Symtab} (h : SameShape st st2) {n : String}
    (h2 : lookupSym st2 n = none) : lookupSym st n = none := by
  have hn := h n
  rw [h2] at hn
  exact Option.map_eq_none'.mp hn

lemma reaches_of_sameShape {st st2 : Symtab} (hss : SameShape st st2) {t : TypeNode} {n : String}
    (h : Reaches st t n) : Reaches st2 t n := by
  induction h with
  | here name args => exact .here name args
  | arr _ ih => exact .arr ih
  | uni hm _ ih => exact .uni hm ih
  | arg hm _ ih => exact .arg hm ih
  | mem he hkv _ ih =>
    obtain ⟨e2, he2, _, hmem⟩ := sameShape_lookup_some (sameShape_symm hss) he
    exact .mem he2 (hmem ▸ hkv) ih

lemma containsUndef_of_sameShape {st st2 : Symtab} (hss : SameShape st st2) {t : TypeNode}
    (h : ContainsUndef st t) : ContainsUndef st2 t := by
  induction h with
  | here args hnone => exact .here args (sameShape_lookup_none (sameShape_symm hss) hnone)
  | inArr _ ih => exact .inArr ih
  | inArg hm _ ih => exact .inArg hm ih
  | inUnion hm _ ih => exact .inUnion hm ih

-- ## Lemmas about mapEntry and setRelevant

lemma lookup_mapEntry : ∀ (st : Symtab) (n : String) (f : Entry → Entry) (m : String),
    lookupKV (mapEntry st n f) m =
      if m = n then (lookupKV st m).map f else lookupKV st m
  | [], n, f, m => by by_cases h : m = n <;> simp [mapEntry, lookupKV, h]
  | (k, v) :: rest, n, f, m => by
    by_cases hkn : k = n
    · rw [show mapEntry ((k, v) :: rest) n f = (k, f v) :: mapEntry rest n f from by
        rw [mapEntry, if_pos hkn]]
      by_cases hkm : k = m
      · simp only [lookupKV, if_pos hkm, if_pos (hkm.symm.trans hkn), Option.map_some']
      · simp only [lookupKV, if_neg hkm]
        exact lookup_mapEntry rest n f m
    · rw [show mapEntry ((k, v) :: rest) n f = (k, v) :: mapEntry rest n f from by
        rw [mapEntry, if_neg hkn]]
      by_cases hkm : k = m
      · simp only [lookupKV, if_pos hkm, if_neg (fun hh : m = n => hkn (hkm.trans hh))]
      · simp only [lookupKV, if_neg hkm]
        exact lookup_mapEntry rest n f m

lemma keys_mapEntry : ∀ (st : Symtab) (n : String) (f : Entry → Entry),
    (mapEntry st n f).map Prod.fst = st.map Prod.fst
  | [], _, _ => rfl
  | (k, v) :: rest, n, f => by
    by_cases hkn : k = n
    · rw [show mapEntry ((k, v) :: rest) n f = (k, f v) :: mapEntry rest n f from by
        rw [mapEntry, if_pos hkn]]
      simp only [List.map_cons, keys_mapEntry rest n f]
    · rw [show mapEntry ((k, v) :: rest) n f = (k, v) :: mapEntry rest n f from by
        rw [mapEntry, if_neg hkn]]
      simp only [List.map_cons, keys_mapEntry rest n f]

lemma lookup_setRelevant (st : Symtab) (n m : String) :
    lookupSym (setRelevant st n) m =
      if m = n then (lookupSym st m).map (fun e => { e with relevant := true })
      else lookupSym st m :=
  lookup_mapEntry st n _ m

lemma sameShape_setRelevant (st : Symtab) (n : String) : SameShape st (setRelevant st n) := by
  intro m
  rw [lookup_setRelevant]
  by_cases h : m = n
  · rw [if_pos h]
    cases lookupSym st m <;> rfl
  · rw [if_neg h]

lemma keys_setRelevant (st : Symtab) (n : String) :
    (setRelevant st n).map Prod.fst = st.map Prod.fst :=
  keys_mapEntry st n _

lemma relevant_setRelevant {st : Symtab} {n m : String} {e2 : Entry}
    (h : lookupSym (setRelevant st n) m = some e2) (hrel : e2.relevant = true) :
    (∃ e, lookupSym st m = some e ∧ e.relevant = true) ∨ m = n := by
  by_cases hmn : m = n
  · right; exact hmn
  · left
    rw [lookup_setRelevant, if_neg hmn] at h
    exact ⟨e2, h, hrel⟩

-- ## The marking pass only marks reachable entries

def RootReach (st : Symtab) : TypeNode ⊕ List TypeNode → String → Prop
  | .inl t, n => Reaches st t n
  | .inr ts, n => ∃ t ∈ ts, Reaches st t n

theorem markFuel_ok_spec : ∀ (fuel : Nat) (inp : TypeNode ⊕ List TypeNode) (st st2 : Symtab),
    markFuel fuel inp st = .ok st2 →
    st2.map Prod.fst = st.map Prod.fst ∧ SameShape st st2 ∧
    (∀ n e2, lookupSym st2 n = some e2 → e2.relevant = true →
      (∃ e, lookupSym st n = some e ∧ e.relevant = true) ∨ RootReach st inp n) := by
  have base : ∀ (inp : TypeNode ⊕ List TypeNode) (st st2 : Symtab), Res.ok st = .ok st2 →
      st2.map Prod.fst = st.map Prod.fst ∧ SameShape st st2 ∧
      (∀ n e2, lookupSym st2 n = some e2 → e2.relevant = true →
        (∃ e, lookupSym st n = some e ∧ e.relevant = true) ∨ RootReach st inp n) := by
    intro inp st st2 h
    injection h with h2
    subst h2
    exact ⟨rfl, sameShape_refl st, fun n e2 hl hr => Or.inl ⟨e2, hl, hr⟩⟩
  intro fuel
  induction fuel with
  | zero => intro inp st st2 h; exact Res.noConfusion h
  | succ f ih =>
    intro inp st st2 h
    match inp with
    | .inl (.token k) => exact base _ st st2 h
    | .inl (.literalType v) => exact base _ st st2 h
    | .inl .funcType => exact base _ st st2 h
    | .inl .typeQuery => exact base _ st st2 h
    | .inl .parenType => exact base _ st st2 h
    | .inl (.otherNode kk) => exact base _ st st2 h
    | .inl (.arrayType e) =>
      obtain ⟨hk, hss, hg⟩ := ih (.inl e) st st2 h
      exact ⟨hk, hss, fun n e2 hl hr =>
        (hg n e2 hl hr).imp id (fun hre => Reaches.arr hre)⟩
    | .inl (.unionType ms) =>
      obtain ⟨hk, hss, hg⟩ := ih (.inr ms) st st2 h
      refine ⟨hk, hss, fun n e2 hl hr => (hg n e2 hl hr).imp id ?_⟩
      rintro ⟨t, htm, hre⟩
      exact Reaches.uni htm hre
    | .inl (.typeRef name args) =>
      simp only [markFuel] at h
      cases hl : lookupSym st name with
      | none => simp only [hl] at h; exact Res.noConfusion h
      | some e0 =>
        simp only [hl] at h
        have hss1 : SameShape st (setRelevant st name) := sameShape_setRelevant st name
        cases hA : markFuel f (.inr args) (setRelevant st name) with
        | err msg => simp only [hA] at h; exact Res.noConfusion h
        | timeout => simp only [hA] at h; exact Res.noConfusion h
        | ok stA =>
          simp only [hA] at h
          obtain ⟨hkA, hssA, hgA⟩ := ih (.inr args) (setRelevant st name) stA hA
          have hssStA : SameShape st stA := sameShape_trans hss1 hssA
          have growA : ∀ n e2, lookupSym stA n = some e2 → e2.relevant = true →
              (∃ e, lookupSym st n = some e ∧ e.relevant = true) ∨
                RootReach st (.inl (.typeRef name args)) n := by
            intro n e2 hl2 hr2
            rcases hgA n e2 hl2 hr2 with hrel1 | ⟨a, ham, hre1⟩
            · rcases hrel1 with ⟨e1, hl1, hr1⟩
              rcases relevant_setRelevant hl1 hr1 with hrel0 | rfl
              · exact Or.inl hrel0
              · exact Or.inr (Reaches.here n args)
            · exact Or.inr (Reaches.arg ham
                (reaches_of_sameShape (sameShape_symm hss1) hre1))
          cases hlA : lookupSym stA name with
          | none =>
            simp only [hlA] at h
            injection h with h2
            subst h2
            exact ⟨hkA.trans (keys_setRelevant st name), hssStA, growA⟩
          | some eA =>
            simp only [hlA] at h
            obtain ⟨hkB, hssB, hgB⟩ := ih _ stA st2 h
            refine ⟨hkB.trans (hkA.trans (keys_setRelevant st name)),
              sameShape_trans hssStA hssB, ?_⟩
            intro n e2 hl2 hr2
            rcases hgB n e2 hl2 hr2 with hrelA | ⟨mt, hmtm, hreA⟩
            · rcases hrelA with ⟨eA2, hlA2, hrA2⟩
              exact growA n eA2 hlA2 hrA2
            · obtain ⟨e0', hl0', _, hmem'⟩ := sameShape_lookup_some hssStA hlA
              rcases List.mem_map.mp hmtm with ⟨kv, hkvm, rfl⟩
              exact Or.inr (Reaches.mem hl0' (hmem'.symm ▸ hkvm)
                (reaches_of_sameShape (sameShape_symm hssStA) hreA))
    | .inr [] => exact base _ st st2 h
    | .inr (t :: rest) =>
      simp only [markFuel] at h
      cases hA : markFuel f (.inl t) st with
      | err msg => simp only [hA] at h; exact Res.noConfusion h
      | timeout => simp only [hA] at h; exact Res.noConfusion h
      | ok stA =>
        simp only [hA] at h
        obtain ⟨hkA, hssA, hgA⟩ := ih (.inl t) st stA hA
        obtain ⟨hkB, hssB, hgB⟩ := ih (.inr rest) stA st2 h
        refine ⟨hkB.trans hkA, sameShape_trans hssA hssB, ?_⟩
        intro n e2 hl2 hr2
        rcases hgB n e2 hl2 hr2 with hrelA | ⟨t2, ht2m, hre2⟩
        · rcases hrelA with ⟨eA2, hlA2, hrA2⟩
          rcases hgA n eA2 hlA2 hrA2 with hrel0 | hre0
          · exact Or.inl hrel0
          · exact Or.inr ⟨t, List.mem_cons_self t rest, hre0⟩
        · exact Or.inr ⟨t2, List.mem_cons_of_mem t ht2m,
            reaches_of_sameShape (sameShape_symm hssA) hre2⟩

-- ## Every marking error is an undefined-type error

theorem markFuel_err_spec : ∀ (fuel : Nat) (inp : TypeNode ⊕ List TypeNode) (st : Symtab)
    (msg : String), markFuel fuel inp st = .err msg →
    ∃ n, lookupSym st n = none ∧ msg = "undefined type " ++ n := by
  intro fuel
  induction fuel with
  | zero => intro inp st msg h; exact Res.noConfusion h
  | succ f ih =>
    intro inp st msg h
    match inp with
    | .inl (.token k) => exact Res.noConfusion h
    | .inl (.literalType v) => exact Res.noConfusion h
    | .inl .funcType => exact Res.noConfusion h
    | .inl .typeQuery => exact Res.noConfusion h
    | .inl .parenType => exact Res.noConfusion h
    | .inl (.otherNode kk) => exact Res.noConfusion h
    | .inl (.arrayType e) => exact ih (.inl e) st msg h
    | .inl (.unionType ms) => exact ih (.inr ms) st msg h
    | .inl (.typeRef name args) =>
      simp only [markFuel] at h
      cases hl : lookupSym st name with
      | none =>
        simp only [hl] at h
        injection h with h2
        exact ⟨name, hl, h2.symm⟩
      | some e0 =>
        simp only [hl] at h
        cases hA : markFuel f (.inr args) (setRelevant st name) with
        | err msgA =>
          simp only [hA] at h
          injection h with h2
          subst h2
          obtain ⟨n1, hnone1, hform⟩ := ih (.inr args) (setRelevant st name) msgA hA
          exact ⟨n1, sameShape_lookup_none (sameShape_setRelevant st name) hnone1, hform⟩
        | timeout => simp only [hA] at h; exact Res.noConfusion h
        | ok stA =>
          simp only [hA] at h
          have hssStA : SameShape st stA :=
            sameShape_trans (sameShape_setRelevant st name)
              (markFuel_ok_spec f (.inr args) _ stA hA).2.1
          cases hlA : lookupSym stA name with
          | none => simp only [hlA] at h; exact Res.noConfusion h
          | some eA =>
            simp only [hlA] at h
            obtain ⟨n1, hnone1, hform⟩ := ih _ stA msg h
            exact ⟨n1, sameShape_lookup_none hssStA hnone1, hform⟩
    | .inr [] => exact Res.noConfusion h
    | .inr (t :: rest) =>
      simp only [markFuel] at h
      cases hA : markFuel f (.inl t) st with
      | err msgA =>
        simp only [hA] at h
        injection h with h2
        subst h2
        exact ih (.inl t) st msgA hA
      | timeout => simp only [hA] at h; exact Res.noConfusion h
      | ok stA =>
        simp only [hA] at h
        obtain ⟨n1, hnone1, hform⟩ := ih (.inr rest) stA msg h
        exact ⟨n1, sameShape_lookup_none (markFuel_ok_spec f (.inl t) st stA hA).2.1 hnone1,
          hform⟩

-- ## A node containing an undefined reference never marks successfully

theorem markList_not_ok {st : Symtab} {a : TypeNode}
    (ha : ∀ (fuel : Nat) (st2 st3 : Symtab), SameShape st st2 →
      markFuel fuel (.inl a) st2 ≠ .ok st3) :
    ∀ (ts : List TypeNode), a ∈ ts → ∀ (fuel : Nat) (st2 st3 : Symtab), SameShape st st2 →
      markFuel fuel (.inr ts) st2 ≠ .ok st3 := by
  intro ts
  induction ts with
  | nil => intro hmem; exact absurd hmem (List.not_mem_nil a)
  | cons t rest ihl =>
    intro hmem fuel st2 st3 hss h
    cases fuel with
    | zero => exact Res.noConfusion h
    | succ f =>
      simp only [markFuel] at h
      cases hA : markFuel f (.inl t) st2 with
      | err m => simp only [hA] at h; exact Res.noConfusion h
      | timeout => simp only [hA] at h; exact Res.noConfusion h
      | ok stA =>
        simp only [hA] at h
        rcases List.mem_cons.mp hmem with rfl | hmem2
        · exact ha f st2 stA hss hA
        · exact ihl hmem2 f stA st3
            (sameShape_trans hss (markFuel_ok_spec f (.inl t) st2 stA hA).2.1) h

theorem markFuel_undef_not_ok : ∀ {st : Symtab} {t : TypeNode}, ContainsUndef st t →
    ∀ (fuel : Nat) (st2 st3 : Symtab), SameShape st st2 →
      markFuel fuel (.inl t) st2 ≠ .ok st3 := by
  intro st t hcu
  induction hcu with
  | @here name args hnone =>
    intro fuel st2 st3 hss h
    cases fuel with
    | zero => exact Res.noConfusion h
    | succ f =>
      simp only [markFuel] at h
      have hn2 : lookupSym st2 name = none := sameShape_lookup_none (sameShape_symm hss) hnone
      simp only [hn2] at h
      exact Res.noConfusion h
  | @inArr e hsub ih =>
    intro fuel st2 st3 hss h
    cases fuel with
    | zero => exact Res.noConfusion h
    | succ f => exact ih f st2 st3 hss h
  | @inArg t2 name args hm hsub ih =>
    intro fuel st2 st3 hss h
    cases fuel with
    | zero => exact Res.noConfusion h
    | succ f =>
      simp only [markFuel] at h
      cases hl : lookupSym st2 name with
      | none => simp only [hl] at h; exact Res.noConfusion h
      | some e0 =>
        simp only [hl] at h
        have hss1 : SameShape st (setRelevant st2 name) :=
          sameShape_trans hss (sameShape_setRelevant st2 name)
        cases hA : markFuel f (.inr args) (setRelevant st2 name) with
        | err m => simp only [hA] at h; exact Res.noConfusion h
        | timeout => simp only [hA] at h; exact Res.noConfusion h
        | ok stA => exact markList_not_ok ih args hm f (setRelevant st2 name) stA hss1 hA
  | @inUnion t2 ms hm hsub ih =>
    intro fuel st2 st3 hss h
    cases fuel with
    | zero => exact Res.noConfusion h
    | succ f => exact markList_not_ok ih ms hm f st2 st3 hss h

-- ## With no options (no expandRefs), the translator never reads the registry

mutual

theorem typeToJSON_st_irrel (st st2 : Symtab) : ∀ (t : TypeNode),
    typeToJSON st none t = typeToJSON st2 none t
  | .token k => rfl
  | .literalType v => rfl
  | .funcType => rfl
  | .typeQuery => rfl
  | .parenType => rfl
  | .otherNode kk => rfl
  | .arrayType e => by
    simp only [typeToJSON, typeToJSON_st_irrel st st2 e]
  | .unionType ms => by
    simp only [typeToJSON, unionElems_st_irrel st st2 ms]
  | .typeRef name [] => by
    simp only [typeToJSON]
    by_cases hA : name = "Array"
    · simp only [if_pos hA]
    · simp only [if_neg hA]
      cases hm : maptypeDescName (optsDocRoot (none : Option TOpts)) name with
      | none => rfl
      | some f =>
        have hcond : ¬(f.ref.isSome = true ∧ optsExpand (none : Option TOpts) = true) :=
          fun hx => Bool.noConfusion hx.2
        simp only [if_neg hcond]
  | .typeRef name (a :: rest) => by
    simp only [typeToJSON]
    by_cases hA : name = "Array"
    · simp only [if_pos hA, typeToJSON_st_irrel st st2 a]
    · simp only [if_neg hA]
      cases hm : maptypeDescName (optsDocRoot (none : Option TOpts)) name with
      | none => rfl
      | some f =>
        have hcond : ¬(f.ref.isSome = true ∧ optsExpand (none : Option TOpts) = true) :=
          fun hx => Bool.noConfusion hx.2
        simp only [if_neg hcond]
termination_by structural t => t

theorem unionElems_st_irrel (st st2 : Symtab) : ∀ (ts : List TypeNode),
    unionElems st none ts = unionElems st2 none ts
  | [] => rfl
  | t :: rest => by
    simp only [unionElems, typeToJSON_st_irrel st st2 t, unionElems_st_irrel st st2 rest]
termination_by structural l => l

end

-- ## Specifications of the parameter-list pass

lemma plistParams_ok_spec : ∀ (ps : List TypedId) (fuel : Nat) (st st2 : Symtab)
    (props : List (String × Frag)), plistParams fuel ps st = .ok (props, st2) →
    st2.map Prod.fst = st.map Prod.fst ∧ SameShape st st2 ∧
    (∀ n e2, lookupSym st2 n = some e2 → e2.relevant = true →
      (∃ e, lookupSym st n = some e ∧ e.relevant = true) ∨
        ∃ p ∈ ps, Reaches st p.type n) := by
  intro ps
  induction ps with
  | nil =>
    intro fuel st st2 props h
    injection h with h2
    rw [Prod.mk.injEq] at h2
    obtain ⟨rfl, rfl⟩ := h2
    exact ⟨rfl, sameShape_refl st, fun n e2 hl hr => Or.inl ⟨e2, hl, hr⟩⟩
  | cons p rest ihl =>
    intro fuel st st2 props h
    simp only [plistParams] at h
    cases ht : typeToJSON st none p.type with
    | error msg => simp only [ht] at h; exact Res.noConfusion h
    | ok jv =>
      simp only [ht] at h
      cases jv with
      | none =>
        obtain ⟨hk, hss, hg⟩ := ihl fuel st st2 props h
        refine ⟨hk, hss, fun n e2 hl hr => (hg n e2 hl hr).imp id ?_⟩
        rintro ⟨p2, hp2, hre⟩
        exact ⟨p2, List.mem_cons_of_mem p hp2, hre⟩
      | some fjson =>
        cases hA : markFuel fuel (.inl p.type) st with
        | err m => simp only [hA] at h; exact Res.noConfusion h
        | timeout => simp only [hA] at h; exact Res.noConfusion h
        | ok stA =>
          simp only [hA] at h
          obtain ⟨hkA, hssA, hgA⟩ := markFuel_ok_spec fuel (.inl p.type) st stA hA
          cases hB : plistParams fuel rest stA with
          | err m => simp only [hB] at h; exact Res.noConfusion h
          | timeout => simp only [hB] at h; exact Res.noConfusion h
          | ok pr =>
            obtain ⟨props2, stB⟩ := pr
            simp only [hB] at h
            injection h with h2
            rw [Prod.mk.injEq] at h2
            obtain ⟨rfl, rfl⟩ := h2
            obtain ⟨hkB, hssB, hgB⟩ := ihl fuel stA stB props2 hB
            refine ⟨hkB.trans hkA, sameShape_trans hssA hssB, ?_⟩
            intro n e2 hl hr
            rcases hgB n e2 hl hr with ⟨eX, hlX, hrX⟩ | ⟨p2, hp2, hre2⟩
            · rcases hgA n eX hlX hrX with h0 | hre0
              · exact Or.inl h0
              · exact Or.inr ⟨p, List.mem_cons_self p rest, hre0⟩
            · exact Or.inr ⟨p2, List.mem_cons_of_mem p hp2,
                reaches_of_sameShape (sameShape_symm hssA) hre2⟩

lemma parameterListToJSON_ok_spec (fuel : Nat) (st : Symtab) (m : DecoratedFunction)
    (x : PlistObj) (st2 : Symtab) (h : parameterListToJSON fuel st m = .ok (x, st2)) :
    st2.map Prod.fst = st.map Prod.fst ∧ SameShape st st2 ∧
    (∀ n e2, lookupSym st2 n = some e2 → e2.relevant = true →
      (∃ e, lookupSym st n = some e ∧ e.relevant = true) ∨
        (∃ p ∈ m.methodParameters, Reaches st p.type n) ∨
        (∃ rt, m.returnType = some rt ∧ Reaches st rt n)) ∧
    x.className = m.className ∧ x.method = m.decorates := by
  unfold parameterListToJSON at h
  cases hP : plistParams fuel m.methodParameters st with
  | err msg => simp only [hP] at h; exact Res.noConfusion h
  | timeout => simp only [hP] at h; exact Res.noConfusion h
  | ok pr =>
    obtain ⟨props, st1⟩ := pr
    simp only [hP] at h
    obtain ⟨hk1, hss1, hg1⟩ := plistParams_ok_spec _ fuel st st1 props hP
    cases hrt : m.returnType with
    | none => simp only [hrt] at h; exact Res.noConfusion h
    | some rt =>
      simp only [hrt] at h
      cases hM : markFuel fuel (.inl rt) st1 with
      | err m2 => simp only [hM] at h; exact Res.noConfusion h
      | timeout => simp only [hM] at h; exact Res.noConfusion h
      | ok stM =>
        simp only [hM] at h
        injection h with h2
        rw [Prod.mk.injEq] at h2
        obtain ⟨hx, rfl⟩ := h2
        obtain ⟨hkM, hssM, hgM⟩ := markFuel_ok_spec fuel (.inl rt) st1 stM hM
        refine ⟨hkM.trans hk1, sameShape_trans hss1 hssM, ?_, ?_, ?_⟩
        · intro n e2 hl hr
          rcases hgM n e2 hl hr with ⟨e1, hl1, hr1⟩ | hre
          · rcases hg1 n e1 hl1 hr1 with h0 | ⟨p, hp, hrep⟩
            · exact Or.inl h0
            · exact Or.inr (Or.inl ⟨p, hp, hrep⟩)
          · exact Or.inr (Or.inr ⟨rt, rfl,
              reaches_of_sameShape (sameShape_symm hss1) hre⟩)
        · rw [← hx]
        · rw [← hx]

lemma genSourcesLoop_ok_spec : ∀ (items : List DecoratedFunction) (fuel : Nat)
    (st st2 : Symtab) (entries : List CheckEntry),
    genSourcesLoop fuel items st = .ok (entries, st2) →
    st2.map Prod.fst = st.map Prod.fst ∧ SameShape st st2 ∧
    (∀ n e2, lookupSym st2 n = some e2 → e2.relevant = true →
      (∃ e, lookupSym st n = some e ∧ e.relevant = true) ∨
        ∃ m ∈ items, (∃ p ∈ m.methodParameters, Reaches st p.type n) ∨
          (∃ rt, m.returnType = some rt ∧ Reaches st rt n)) ∧
    entries.map CheckEntry.key = items.map (fun m => m.className ++ "." ++ m.decorates) := by
  intro items
  induction items with
  | nil =>
    intro fuel st st2 entries h
    injection h with h2
    rw [Prod.mk.injEq] at h2
    obtain ⟨rfl, rfl⟩ := h2
    exact ⟨rfl, sameShape_refl st, fun n e2 hl hr => Or.inl ⟨e2, hl, hr⟩, rfl⟩
  | cons m rest ihl =>
    intro fuel st st2 entries h
    simp only [genSourcesLoop] at h
    cases hA : parameterListToJSON fuel st m with
    | err m2 => simp only [hA] at h; exact Res.noConfusion h
    | timeout => simp only [hA] at h; exact Res.noConfusion h
    | ok pr =>
      obtain ⟨x, stA⟩ := pr
      simp only [hA] at h
      obtain ⟨hkA, hssA, hgA, hcn, hmn⟩ := parameterListToJSON_ok_spec fuel st m x stA hA
      cases hB : genSourcesLoop fuel rest stA with
      | err m2 => simp only [hB] at h; exact Res.noConfusion h
      | timeout => simp only [hB] at h; exact Res.noConfusion h
      | ok pr2 =>
        obtain ⟨entries2, stB⟩ := pr2
        simp only [hB] at h
        injection h with h2
        rw [Prod.mk.injEq] at h2
        obtain ⟨rfl, rfl⟩ := h2
        obtain ⟨hkB, hssB, hgB, hkeysB⟩ := ihl fuel stA stB entries2 hB
        refine ⟨hkB.trans hkA, sameShape_trans hssA hssB, ?_, ?_⟩
        · intro n e2 hl hr
          rcases hgB n e2 hl hr with ⟨eX, hlX, hrX⟩ | ⟨m2, hm2, hre2⟩
          · rcases hgA n eX hlX hrX with h0 | hre0
            · exact Or.inl h0
            · exact Or.inr ⟨m, List.mem_cons_self m rest, hre0⟩
          · refine Or.inr ⟨m2, List.mem_cons_of_mem m hm2, ?_⟩
            rcases hre2 with ⟨p, hp, hrep⟩ | ⟨rt, hrt, hrer⟩
            · exact Or.inl ⟨p, hp, reaches_of_sameShape (sameShape_symm hssA) hrep⟩
            · exact Or.inr ⟨rt, hrt, reaches_of_sameShape (sameShape_symm hssA) hrer⟩
        · simp only [List.map_cons, hkeysB, hcn, hmn]

-- ## The definitions map contains a key iff the entry is a relevant TypeDecl

lemma lookupKV_eq_none_of_not_mem {α : Type} : ∀ (l : List (String × α)) (n : String),
    n ∉ l.map Prod.fst → lookupKV l n = none
  | [], _, _ => rfl
  | (k, v) :: rest, n, h => by
    simp only [List.map_cons, List.mem_cons] at h
    push_neg at h
    simp only [lookupKV, if_neg (fun hh : k = n => h.1 hh.symm)]
    exact lookupKV_eq_none_of_not_mem rest n h.2

lemma s2d_keys_sub : ∀ (st : Symtab) (n : String),
    n ∈ (symtabToSchemaDefinitions st).2.map Prod.fst → n ∈ st.map Prod.fst
  | [], n, h => absurd h (List.not_mem_nil n)
  | (k, e) :: rest, n, h => by
    by_cases hc : e.type = "type" ∧ e.relevant = true
    · rw [show symtabToSchemaDefinitions ((k, e) :: rest) =
          ((k, { e with defn := some (defFragOf e) }) :: (symtabToSchemaDefinitions rest).1,
            (k, defFragOf e) :: (symtabToSchemaDefinitions rest).2) from by
        rw [symtabToSchemaDefinitions, if_pos hc]] at h
      simp only [List.map_cons, List.mem_cons] at h ⊢
      exact h.imp id (s2d_keys_sub rest n)
    · rw [show symtabToSchemaDefinitions ((k, e) :: rest) =
          ((k, e) :: (symtabToSchemaDefinitions rest).1, (symtabToSchemaDefinitions rest).2) from by
        rw [symtabToSchemaDefinitions, if_neg hc]] at h
      simp only [List.map_cons, List.mem_cons]
      exact Or.inr (s2d_keys_sub rest n h)

lemma s2d_lookup : ∀ (st : Symtab), (st.map Prod.fst).Nodup → ∀ (n : String),
    ((lookupKV (symtabToSchemaDefinitions st).2 n).isSome = true ↔
      ∃ e, lookupSym st n = some e ∧ e.type = "type" ∧ e.relevant = true)
  | [], _, n => by
    simp [symtabToSchemaDefinitions, lookupKV, lookupSym]
  | (k, e) :: rest, hnd, n => by
    simp only [List.map_cons, List.nodup_cons] at hnd
    obtain ⟨hk, hnd2⟩ := hnd
    by_cases hc : e.type = "type" ∧ e.relevant = true
    · rw [show symtabToSchemaDefinitions ((k, e) :: rest) =
          ((k, { e with defn := some (defFragOf e) }) :: (symtabToSchemaDefinitions rest).1,
            (k, defFragOf e) :: (symtabToSchemaDefinitions rest).2) from by
        rw [symtabToSchemaDefinitions, if_pos hc]]
      by_cases hkn : k = n
      · simp only [lookupKV, lookupSym, if_pos hkn, Option.isSome_some]
        constructor
        · intro _
          exact ⟨e, rfl, hc⟩
        · intro _
          trivial
      · simp only [lookupKV, lookupSym, if_neg hkn]
        exact s2d_lookup rest hnd2 n
    · rw [show symtabToSchemaDefinitions ((k, e) :: rest) =
          ((k, e) :: (symtabToSchemaDefinitions rest).1, (symtabToSchemaDefinitions rest).2) from by
        rw [symtabToSchemaDefinitions, if_neg hc]]
      by_cases hkn : k = n
      · constructor
        · intro hs
          exfalso
          have hmem : n ∈ (symtabToSchemaDefinitions rest).2.map Prod.fst := by
            cases hl : lookupKV (symtabToSchemaDefinitions rest).2 n with
            | none => rw [hl] at hs; exact Bool.noConfusion hs
            | some d =>
              by_contra hnm
              rw [lookupKV_eq_none_of_not_mem _ n hnm] at hl
              exact Option.noConfusion hl
          exact hk (hkn ▸ s2d_keys_sub rest n hmem)
        · rintro ⟨e2, hl2, ht2, hr2⟩
          exfalso
          rw [show lookupSym ((k, e) :: rest) n = some e from by
            simp only [lookupSym, lookupKV, if_pos hkn]] at hl2
          injection hl2 with h2
          exact hc (h2 ▸ ⟨ht2, hr2⟩)
      · simp only [lookupSym, lookupKV, if_neg hkn]
        exact s2d_lookup rest hnd2 n

/-- C2: after the marking pass of genSources completes, the emitted shared
definitions map contains a key iff the symtab entry of that name is a
TypeDecl whose relevance flag is set; and every TypeDecl that starts
unmarked and is unreachable (through parameter and return types of every
endpoint) is absent from the definitions map. -/
theorem c2_definitions_iff_relevant (fuel : Nat) (items : List DecoratedFunction)
    (st st2 : Symtab) (entries : List CheckEntry)
    (hnodup : (st.map Prod.fst).Nodup)
    (hrun : genSourcesLoop fuel items st = .ok (entries, st2)) :
    (∀ n, ((lookupKV (symtabToSchemaDefinitions st2).2 n).isSome = true ↔
      ∃ e, lookupSym st2 n = some e ∧ e.type = "type" ∧ e.relevant = true)) ∧
    (∀ n e, lookupSym st n = some e → e.type = "type" → e.relevant = false →
      (∀ m ∈ items, (∀ p ∈ m.methodParameters, ¬ Reaches st p.type n) ∧
        (∀ rt, m.returnType = some rt → ¬ Reaches st rt n)) →
      lookupKV (symtabToSchemaDefinitions st2).2 n = none) := by
  obtain ⟨hk, hss, hg, hkeys⟩ := genSourcesLoop_ok_spec items fuel st st2 entries hrun
  have hnodup2 : (st2.map Prod.fst).Nodup := hk ▸ hnodup
  have hiff := s2d_lookup st2 hnodup2
  refine ⟨hiff, ?_⟩
  intro n e he htype hrel hnor
  cases hd : lookupKV (symtabToSchemaDefinitions st2).2 n with
  | none => rfl
  | some d =>
    exfalso
    have hs : (lookupKV (symtabToSchemaDefinitions st2).2 n).isSome = true := by
      rw [hd]; rfl
    obtain ⟨e2, hl2, ht2, hr2⟩ := (hiff n).mp hs
    rcases hg n e2 hl2 hr2 with ⟨e0, hl0, hr0⟩ | ⟨m, hm, hreach⟩
    · have he0 : e0 = e := by
        have := he.symm.trans hl0
        injection this with h2
        exact h2.symm
      rw [he0, hrel] at hr0
      exact Bool.noConfusion hr0
    · rcases hreach with ⟨p, hp, hre⟩ | ⟨rt, hrt, hre⟩
      · exact (hnor m hm).1 p hp hre
      · exact (hnor m hm).2 rt hrt hre

def mC2 : DecoratedFunction :=
  { className := "A", comment := none, decorates := "m", decoratorArgs := [],
    methodParameters := [], returnType := some (.token .stringKw), type := "get" }

/-- C2 witness: a registry with one never-referenced TypeDecl T and one
endpoint whose signature is string-only; the pass completes and T is absent
from the definitions map. -/
theorem c2_witness :
    (([("T", typeEntry [] none)].map Prod.fst).Nodup ∧
      (∃ entries, genSourcesLoop 3 [mC2] [("T", typeEntry [] none)] =
        .ok (entries, [("T", typeEntry [] none)]))) ∧
    lookupKV (symtabToSchemaDefinitions [("T", typeEntry [] none)]).2 "T" = none := by
  refine ⟨⟨by decide, ⟨_, rfl⟩⟩, ?_⟩
  refine (c2_definitions_iff_relevant 3 [mC2] [("T", typeEntry [] none)]
    [("T", typeEntry [] none)] _ (by decide) rfl).2 "T" (typeEntry [] none) rfl rfl rfl ?_
  intro m hm
  rcases List.mem_singleton.mp hm with rfl
  refine ⟨fun p hp => absurd hp (List.not_mem_nil p), fun rt hrt hre => ?_⟩
  injection hrt with h2
  subst h2
  cases hre

-- ## C4: undefined references in the nodes the pass actually marks

-- The nodes parameterListToJSON passes to markAsRelevant: each parameter
-- whose translation is non-null (line 345), and the return type (line 350).
def markedRoots (st : Symtab) (m : DecoratedFunction) : List TypeNode :=
  m.methodParameters.filterMap (fun p =>
    match typeToJSON st none p.type with
    | .ok (some _) => some p.type
    | _ => none) ++
  (match m.returnType with
   | some rt => [rt]
   | none => [])

lemma plistParams_not_ok {st : Symtab} {p : TypedId} (hundef : ContainsUndef st p.type)
    (htrans : ∃ f0, typeToJSON st none p.type = .ok (some f0)) :
    ∀ (ps : List TypedId), p ∈ ps → ∀ (fuel : Nat) (st2 : Symtab) x, SameShape st st2 →
      plistParams fuel ps st2 ≠ .ok x := by
  intro ps
  induction ps with
  | nil => intro hmem; exact absurd hmem (List.not_mem_nil p)
  | cons q rest ihl =>
    intro hmem fuel st2 x hss h
    simp only [plistParams] at h
    rcases List.mem_cons.mp hmem with rfl | hmem2
    · rw [typeToJSON_st_irrel st2 st p.type] at h
      obtain ⟨f0, hok⟩ := htrans
      simp only [hok] at h
      cases hA : markFuel fuel (.inl p.type) st2 with
      | ok stA => exact markFuel_undef_not_ok hundef fuel st2 stA hss hA
      | err m => simp only [hA] at h; exact Res.noConfusion h
      | timeout => simp only [hA] at h; exact Res.noConfusion h
    · cases ht : typeToJSON st2 none q.type with
      | error msg => simp only [ht] at h; exact Res.noConfusion h
      | ok jv =>
        simp only [ht] at h
        cases jv with
        | none => exact ihl hmem2 fuel st2 x hss h
        | some fj =>
          cases hA : markFuel fuel (.inl q.type) st2 with
          | err m => simp only [hA] at h; exact Res.noConfusion h
          | timeout => simp only [hA] at h; exact Res.noConfusion h
          | ok stA =>
            simp only [hA] at h
            cases hB : plistParams fuel rest stA with
            | ok pr =>
              exact ihl hmem2 fuel stA pr
                (sameShape_trans hss (markFuel_ok_spec fuel (.inl q.type) st2 stA hA).2.1) hB
            | err m => simp only [hB] at h; exact Res.noConfusion h
            | timeout => simp only [hB] at h; exact Res.noConfusion h

lemma plistParams_err_spec {st : Symtab} :
    ∀ (ps : List TypedId) (fuel : Nat) (st2 : Symtab) (msg : String),
      SameShape st st2 →
      (∀ p ∈ ps, ∀ e, typeToJSON st none p.type ≠ .error e) →
      plistParams fuel ps st2 = .err msg →
      ∃ n, lookupSym st n = none ∧ msg = "undefined type " ++ n := by
  intro ps
  induction ps with
  | nil => intro fuel st2 msg _ _ h; exact Res.noConfusion h
  | cons q rest ihl =>
    intro fuel st2 msg hss hp h
    simp only [plistParams] at h
    cases ht : typeToJSON st2 none q.type with
    | error m =>
      exact absurd (by rw [typeToJSON_st_irrel st st2]; exact ht)
        (hp q (List.mem_cons_self q rest) m)
    | ok jv =>
      simp only [ht] at h
      cases jv with
      | none =>
        exact ihl fuel st2 msg hss (fun p hp2 => hp p (List.mem_cons_of_mem q hp2)) h
      | some fj =>
        cases hA : markFuel fuel (.inl q.type) st2 with
        | err m =>
          simp only [hA] at h
          injection h with h2
          subst h2
          obtain ⟨n1, hn1, hform⟩ := markFuel_err_spec fuel (.inl q.type) st2 m hA
          exact ⟨n1, sameShape_lookup_none hss hn1, hform⟩
        | timeout => simp only [hA] at h; exact Res.noConfusion h
        | ok stA =>
          simp only [hA] at h
          cases hB : plistParams fuel rest stA with
          | err m2 =>
            simp only [hB] at h
            injection h with h2
            subst h2
            exact ihl fuel stA m2
              (sameShape_trans hss (markFuel_ok_spec fuel (.inl q.type) st2 stA hA).2.1)
              (fun p hp2 => hp p (List.mem_cons_of_mem q hp2)) hB
          | timeout => simp only [hB] at h; exact Res.noConfusion h
          | ok pr =>
            obtain ⟨prl, prs⟩ := pr
            simp only [hB] at h
            exact Res.noConfusion h

lemma parameterListToJSON_not_ok {st : Symtab} {m : DecoratedFunction} {root : TypeNode}
    (hroot : root ∈ markedRoots st m) (hundef : ContainsUndef st root) :
    ∀ (fuel : Nat) x, parameterListToJSON fuel st m ≠ .ok x := by
  intro fuel x h
  unfold parameterListToJSON at h
  unfold markedRoots at hroot
  rcases List.mem_append.mp hroot with hpar | hret
  · rcases List.mem_filterMap.mp hpar with ⟨p, hpmem, hpeq⟩
    cases ht : typeToJSON st none p.type with
    | error e => rw [ht] at hpeq; exact Option.noConfusion hpeq
    | ok jv =>
      cases jv with
      | none => rw [ht] at hpeq; exact Option.noConfusion hpeq
      | some f0 =>
        rw [ht] at hpeq
        injection hpeq with h2
        subst h2
        cases hP : plistParams fuel m.methodParameters st with
        | ok pr =>
          exact plistParams_not_ok hundef ⟨f0, ht⟩ m.methodParameters hpmem fuel st pr
            (sameShape_refl st) hP
        | err msg => rw [hP] at h; exact Res.noConfusion h
        | timeout => rw [hP] at h; exact Res.noConfusion h
  · cases hrt : m.returnType with
    | none => rw [hrt] at hret; exact absurd hret (List.not_mem_nil root)
    | some rt =>
      rw [hrt] at hret
      rcases List.mem_singleton.mp hret with rfl
      cases hP : plistParams fuel m.methodParameters st with
      | err m2 => simp only [hP] at h; exact Res.noConfusion h
      | timeout => simp only [hP] at h; exact Res.noConfusion h
      | ok pr =>
        obtain ⟨props, st1⟩ := pr
        simp only [hP, hrt] at h
        cases hM : markFuel fuel (.inl root) st1 with
        | ok stM =>
          exact markFuel_undef_not_ok hundef fuel st1 stM
            (plistParams_ok_spec _ fuel st st1 props hP).2.1 hM
        | err m2 => simp only [hM] at h; exact Res.noConfusion h
        | timeout => simp only [hM] at h; exact Res.noConfusion h

lemma parameterListToJSON_err_spec {st : Symtab} {m : DecoratedFunction}
    (hparams : ∀ p ∈ m.methodParameters, ∀ e, typeToJSON st none p.type ≠ .error e)
    (hret : m.returnType.isSome = true) :
    ∀ (fuel : Nat) (msg : String), parameterListToJSON fuel st m = .err msg →
    ∃ n, lookupSym st n = none ∧ msg = "undefined type " ++ n := by
  intro fuel msg h
  unfold parameterListToJSON at h
  cases hP : plistParams fuel m.methodParameters st with
  | err m2 =>
    simp only [hP] at h
    injection h with h2
    subst h2
    exact plistParams_err_spec m.methodParameters fuel st m2 (sameShape_refl st) hparams hP
  | timeout => simp only [hP] at h; exact Res.noConfusion h
  | ok pr =>
    obtain ⟨props, st1⟩ := pr
    simp only [hP] at h
    cases hrt : m.returnType with
    | none => rw [hrt] at hret; exact Bool.noConfusion hret
    | some rt =>
      simp only [hrt] at h
      cases hM : markFuel fuel (.inl rt) st1 with
      | err m2 =>
        simp only [hM] at h
        injection h with h2
        subst h2
        obtain ⟨n1, hn1, hform⟩ := markFuel_err_spec fuel (.inl rt) st1 m2 hM
        exact ⟨n1,
          sameShape_lookup_none (plistParams_ok_spec _ fuel st st1 props hP).2.1 hn1, hform⟩
      | timeout => simp only [hM] at h; exact Res.noConfusion h
      | ok stM => simp only [hM] at h; exact Res.noConfusion h

/-- C4 amended: when a node the pass actually marks (a parameter whose
translation is non-null, or the return type) contains a reference to a name
absent from the registry, the pass never succeeds, every error it reports is
an undefined-type error naming an undefined name, and the error propagates
out of the genSources loop un-caught (aborting the run).  A parameter whose
type translates to no schema (for example the bare builtin reference
Function) is skipped without being marked, so it raises no error - the
exception the original claim misses. -/
theorem c4_amended_marking_fails (fuel : Nat) (st : Symtab) (m : DecoratedFunction)
    (root : TypeNode) (hroot : root ∈ markedRoots st m) (hundef : ContainsUndef st root)
    (hparams : ∀ p ∈ m.methodParameters, ∀ e, typeToJSON st none p.type ≠ .error e)
    (hret : m.returnType.isSome = true) :
    (∀ x, parameterListToJSON fuel st m ≠ .ok x) ∧
    (∀ msg, parameterListToJSON fuel st m = .err msg →
      ∃ n, lookupSym st n = none ∧ msg = "undefined type " ++ n) ∧
    (∀ msg rest, parameterListToJSON fuel st m = .err msg →
      genSourcesLoop fuel (m :: rest) st = .err msg) :=
  ⟨fun x => parameterListToJSON_not_ok hroot hundef fuel x,
   fun msg h => parameterListToJSON_err_spec hparams hret fuel msg h,
   fun msg rest h => by simp only [genSourcesLoop, h]⟩

def mC4 : DecoratedFunction :=
  { className := "A", comment := none, decorates := "m", decoratorArgs := [],
    methodParameters := [{ id := "x", type := .typeRef "Missing" [] }],
    returnType := some (.token .stringKw), type := "get" }

/-- C4 amended witness: a parameter referencing the unregistered name
Missing makes the pass fail with exactly the undefined-type error. -/
theorem c4_amended_witness :
    ((.typeRef "Missing" [] : TypeNode) ∈ markedRoots [("T", typeEntry [] none)] mC4 ∧
      mC4.returnType.isSome = true) ∧
    (∀ x, parameterListToJSON 9 [("T", typeEntry [] none)] mC4 ≠ .ok x) ∧
    parameterListToJSON 9 [("T", typeEntry [] none)] mC4 = .err "undefined type Missing" :=
  ⟨⟨List.mem_cons_self _ _, rfl⟩,
   (c4_amended_marking_fails 9 [("T", typeEntry [] none)] mC4 (.typeRef "Missing" [])
     (List.mem_cons_self _ _)
     (ContainsUndef.here [] rfl)
     (fun p hp e => by
       rcases List.mem_singleton.mp hp with rfl
       rw [show typeToJSON [("T", typeEntry [] none)] none
           (.typeRef "Missing" []) = .ok (some (Frag.refOnly "#/definitions/Missing")) from rfl]
       exact fun hc => Except.noConfusion hc)
     rfl).1,
   rfl⟩

def mC4f : DecoratedFunction :=
  { className := "A", comment := none, decorates := "m", decoratorArgs := [],
    methodParameters := [{ id := "f", type := .typeRef "Function" [] }],
    returnType := some (.token .stringKw), type := "get" }

/-- C4 counterexample: a parameter whose type is the named reference
Function, a name not present in the registry, does not make the pass fail:
its translation is null (maptypeDescName maps Function to no schema), the
parameter is skipped without marking, and parameterListToJSON succeeds. -/
theorem c4_counterexample :
    ContainsUndef [] (.typeRef "Function" []) ∧
    mC4f.methodParameters.map (fun p => p.type) = [.typeRef "Function" []] ∧
    (∃ x, parameterListToJSON 9 ([] : Symtab) mC4f = .ok x) :=
  ⟨ContainsUndef.here [] rfl, rfl, ⟨_, rfl⟩⟩

-- ## C6 amended: expandRefs is forced only in the Promise branch

lemma genSwaggerMethod_response (st : Symtab) (pfx p1 : String) (m : DecoratedFunction)
    (pid verb : String) (op : SwaggerOp)
    (h : genSwaggerMethod st pfx p1 m = .ok (pid, verb, op)) :
    ∃ rtd, genSwaggerReturn st m = .ok rtd ∧ op.response = respOf rtd := by
  unfold genSwaggerMethod at h
  cases hR : genSwaggerReturn st m with
  | error msg => simp only [hR] at h; exact Except.noConfusion h
  | ok rtd =>
    simp only [hR] at h
    cases hPar : genSwaggerParams st
        (if m.type = "post" ∨ m.type = "all" ∨ m.type = "delete" then "body" else "query")
        m.methodParameters with
    | error msg => simp only [hPar] at h; exact Except.noConfusion h
    | ok params =>
      simp only [hPar] at h
      injection h with h2
      rw [Prod.mk.injEq] at h2
      obtain ⟨-, h3⟩ := h2
      rw [Prod.mk.injEq] at h3
      obtain ⟨-, h4⟩ := h3
      exact ⟨rtd, rfl, by rw [← h4]⟩

/-- C6 amended: the 200 response schema is derived from the return type with
expandRefs forced true only when the return type is Promise of T (the
translation is then applied to the unwrapped T with docRoot
#/components/schemas); a non-Promise reference return type is translated
with no options (refs stay unexpanded $ref against #/definitions); an absent
return type yields the 204 response with no schema. -/
theorem c6_amended_return_type_translation (st : Symtab) (pfx p1 : String)
    (m : DecoratedFunction) (pid verb : String) (op : SwaggerOp)
    (h : genSwaggerMethod st pfx p1 m = .ok (pid, verb, op)) :
    (m.returnType = none → op.response = .no204) ∧
    (∀ name args, m.returnType = some (.typeRef name args) → name ≠ "Promise" →
      ∃ r, typeToJSON st none (.typeRef name args) = .ok r ∧ op.response = respOf r) ∧
    (∀ a rest, m.returnType = some (.typeRef "Promise" (a :: rest)) →
      ∃ r, typeToJSON st expandOpts a = .ok r ∧ op.response = respOf r) := by
  obtain ⟨rtd, hR, hresp⟩ := genSwaggerMethod_response st pfx p1 m pid verb op h
  refine ⟨?_, ?_, ?_⟩
  · intro hrt
    unfold genSwaggerReturn at hR
    rw [hrt] at hR
    injection hR with h2
    rw [← h2] at hresp
    exact hresp
  · intro name args hrt hname
    unfold genSwaggerReturn at hR
    rw [hrt] at hR
    cases ht : typeToJSON st none (.typeRef name args) with
    | error msg => simp only [ht] at hR; exact Except.noConfusion hR
    | ok r0 =>
      simp only [ht, if_neg hname] at hR
      injection hR with h2
      rw [← h2] at hresp
      exact ⟨r0, rfl, hresp⟩
  · intro a rest hrt
    unfold genSwaggerReturn at hR
    rw [hrt] at hR
    cases ht : typeToJSON st none (.typeRef "Promise" (a :: rest)) with
    | error msg => simp only [ht] at hR; exact Except.noConfusion hR
    | ok r0 =>
      simp only [ht, if_pos rfl] at hR
      exact ⟨rtd, hR, hresp⟩

def mProm : DecoratedFunction :=
  { className := "P", comment := none, decorates := "list", decoratorArgs := [],
    methodParameters := [], returnType := some (.typeRef "Promise" [.token .numberKw]),
    type := "get" }

def opProm : SwaggerOp :=
  { tags := ["c"], operationId := "list", description := none, parameters := [],
    response := .ok200 (Frag.typeOnly "number") }

/-- C6 amended witness: a Promise of number return type translated through
the Promise branch with expandRefs forced true. -/
theorem c6_amended_witness :
    genSwaggerMethod [] "p" "c" mProm = .ok ("/p/c/list", "get", opProm) ∧
    (∃ r, typeToJSON [] expandOpts (.token .numberKw) = .ok r ∧ opProm.response = respOf r) :=
  ⟨rfl,
   (c6_amended_return_type_translation [] "p" "c" mProm "/p/c/list" "get" opProm rfl).2.2
     (.token .numberKw) [] rfl⟩

-- ## C7: where an endpoint with an undeclared controller shows up

lemma mem_mapEntry : ∀ (st : Symtab) (n : String) (f : Entry → Entry) (kv : String × Entry),
    kv ∈ mapEntry st n f → ∃ kv0, kv0 ∈ st ∧ (kv = kv0 ∨ kv = (kv0.1, f kv0.2))
  | [], _, _, kv, h => absurd h (List.not_mem_nil kv)
  | (k, v) :: rest, n, f, kv, h => by
    by_cases hk : k = n
    · rw [show mapEntry ((k, v) :: rest) n f = (k, f v) :: mapEntry rest n f from by
        rw [mapEntry, if_pos hk]] at h
      rcases List.mem_cons.mp h with rfl | h2
      · exact ⟨(k, v), List.mem_cons_self _ _, Or.inr rfl⟩
      · obtain ⟨kv0, hm, hor⟩ := mem_mapEntry rest n f kv h2
        exact ⟨kv0, List.mem_cons_of_mem _ hm, hor⟩
    · rw [show mapEntry ((k, v) :: rest) n f = (k, v) :: mapEntry rest n f from by
        rw [mapEntry, if_neg hk]] at h
      rcases List.mem_cons.mp h with rfl | h2
      · exact ⟨(k, v), List.mem_cons_self _ _, Or.inl rfl⟩
      · obtain ⟨kv0, hm, hor⟩ := mem_mapEntry rest n f kv h2
        exact ⟨kv0, List.mem_cons_of_mem _ hm, hor⟩

lemma connectMethods_entries : ∀ (es : List DecoratedFunction) (st : Symtab)
    {e : DecoratedFunction},
    (∀ kv ∈ st, e ∉ kv.2.methods) → lookupSym st e.className = none →
    ∀ kv ∈ connectMethods es st, e ∉ kv.2.methods
  | [], st, e, hq, _ => hq
  | e2 :: rest, st, e, hq, hn => by
    simp only [connectMethods]
    cases hl : lookupSym st e2.className with
    | none => exact connectMethods_entries rest st hq hn
    | some ent =>
      have hne : e ≠ e2 := by
        intro hee
        rw [hee] at hn
        rw [hn] at hl
        exact Option.noConfusion hl
      refine connectMethods_entries rest _ ?_ ?_
      · intro kv hkv
        rcases mem_mapEntry st e2.className _ kv hkv with ⟨kv0, hm0, heq | heq⟩
        · rw [heq]
          exact hq kv0 hm0
        · rw [heq]
          intro hcon
          rcases List.mem_append.mp hcon with hcon1 | hcon2
          · exact hq kv0 hm0 hcon1
          · exact hne (List.mem_singleton.mp hcon2)
      · by_cases hcl : e.className = e2.className
        · rw [hcl] at hn
          rw [hn] at hl
          exact Option.noConfusion hl
        · show lookupKV (mapEntry st e2.className _) e.className = none
          rw [lookup_mapEntry, if_neg hcl]
          exact hn

lemma controllers_methods_from_entries : ∀ (st : Symtab) (c : Controller),
    c ∈ symtabToControllerDefinitions st → ∃ kv, kv ∈ st ∧ c.methods = kv.2.methods
  | [], c, h => absurd h (List.not_mem_nil c)
  | (k, e) :: rest, c, h => by
    simp only [symtabToControllerDefinitions] at h
    split at h
    · rcases List.mem_cons.mp h with rfl | h2
      · exact ⟨(k, e), List.mem_cons_self _ _, rfl⟩
      · obtain ⟨kv, hm, he⟩ := controllers_methods_from_entries rest c h2
        exact ⟨kv, List.mem_cons_of_mem _ hm, he⟩
    · obtain ⟨kv, hm, he⟩ := controllers_methods_from_entries rest c h
      exact ⟨kv, List.mem_cons_of_mem _ hm, he⟩

lemma routesSection_split {e : DecoratedFunction} : ∀ (ms : List DecoratedFunction), e ∈ ms →
    ∃ s1 s2, genRoutesEndpointsSection ms = s1 ++ genRoutesEndpointBlock e ++ s2
  | [], h => absurd h (List.not_mem_nil e)
  | m :: rest, h => by
    rcases List.mem_cons.mp h with rfl | h2
    · exact ⟨"", genRoutesEndpointsSection rest, rfl⟩
    · obtain ⟨s1, s2, hsec⟩ := routesSection_split rest h2
      refine ⟨genRoutesEndpointBlock m ++ s1, s2, ?_⟩
      show genRoutesEndpointBlock m ++ genRoutesEndpointsSection rest = _
      rw [hsec, String.append_assoc, String.append_assoc, String.append_assoc]

/-- C7 amended: an endpoint whose owning controller was never declared is
dropped only from the OpenAPI document (it is appended to no controller's
method list, so no swagger path derives from it) and generation does not
fail on its account; it still appears in the validator module (a check entry
keyed className.method is emitted for every endpoint of the full list) and
in the route module (a handler block is emitted for every endpoint of the
full list). -/
theorem c7_amended_unattached_endpoint (endpoints : List DecoratedFunction) (st : Symtab)
    (e : DecoratedFunction) (fuel : Nat) (entries : List CheckEntry) (st2 : Symtab)
    (hmem : e ∈ endpoints) (hnone : lookupSym st e.className = none)
    (hclean : ∀ kv ∈ st, kv.2.methods = ([] : List DecoratedFunction)) :
    (∀ c ∈ symtabToControllerDefinitions (connectMethods endpoints st), e ∉ c.methods) ∧
    (genSourcesLoop fuel endpoints st = .ok (entries, st2) →
      (e.className ++ "." ++ e.decorates) ∈ entries.map CheckEntry.key) ∧
    (∃ s1 s2, genRoutesEndpointsSection endpoints = s1 ++ genRoutesEndpointBlock e ++ s2) := by
  refine ⟨?_, ?_, routesSection_split endpoints hmem⟩
  · intro c hc
    obtain ⟨kv, hkv, hme⟩ := controllers_methods_from_entries _ c hc
    rw [hme]
    refine connectMethods_entries endpoints st ?_ hnone kv hkv
    intro kv0 hkv0
    rw [hclean kv0 hkv0]
    exact List.not_mem_nil e
  · intro hrun
    obtain ⟨-, -, -, hkeys⟩ := genSourcesLoop_ok_spec endpoints fuel st st2 entries hrun
    rw [hkeys]
    exact List.mem_map_of_mem (fun m => m.className ++ "." ++ m.decorates) hmem

def ghostE : DecoratedFunction :=
  { className := "Ghost", comment := none, decorates := "m", decoratorArgs := [],
    methodParameters := [], returnType := some (.token .stringKw), type := "get" }

def stC7 : Symtab := [("Home", controllerEntry "Home" "h.ts" none)]

/-- C7 amended witness: the concrete unattached endpoint Ghost.m is kept out
of every controller's method list while its route handler block is still
emitted. -/
theorem c7_amended_witness :
    (ghostE ∈ [ghostE] ∧ lookupSym stC7 ghostE.className = none) ∧
    (∀ c ∈ symtabToControllerDefinitions (connectMethods [ghostE] stC7), ghostE ∉ c.methods) ∧
    (∃ s1 s2, genRoutesEndpointsSection [ghostE] = s1 ++ genRoutesEndpointBlock ghostE ++ s2) := by
  have h := c7_amended_unattached_endpoint [ghostE] stC7 ghostE 9 [] []
    (List.mem_cons_self _ _) rfl
    (fun kv hkv => by
      rcases List.mem_singleton.mp hkv with rfl
      rfl)
  exact ⟨⟨List.mem_cons_self _ _, rfl⟩, h.1, h.2.2⟩

set_option maxRecDepth 40000 in
/-- C7 counterexample: the unattached endpoint Ghost.m is silently dropped
from the controller list (no swagger path can derive from it) and generation
does not fail, but it does appear in two of the three artifacts: the check
module emits the entry keyed Ghost.m and the route module emits its handler
block, so the endpoint does not vanish from all three artifacts as claimed.
-/
theorem c7_counterexample :
    connectMethods [ghostE] stC7 = stC7 ∧
    (∃ entries st2, genSourcesLoop 9 [ghostE] stC7 = .ok (entries, st2) ∧
      entries.map CheckEntry.key = ["Ghost.m"]) ∧
    (∃ s2, genRoutesEndpointsSection [ghostE] =
      "\n  apex.getRouter(\x27Ghost\x27).get(\x27/m\x27, async(req,res,next) => \x7b\n" ++ s2) ∧
    symtabToControllerDefinitions (connectMethods [ghostE] stC7) =
      [{ path := "Home", className := "Home", fileName := "h.ts", comment := none,
         methods := [], args := [] }] := by
  refine ⟨rfl, ⟨_, _, rfl, rfl⟩, ?_, rfl⟩
  exact ⟨"    try \x7b\n      const controller = new GhostModule.default(apex.app,binding,req,res,next);\n      const x = await controller.m(req.query);\n\n      success_response(x,req,res,next);\n    \x7d\n    catch(e) \x7b error_response(e,req,res,next); \x7d\n  \x7d);\n", rfl⟩
